import Mathlib

/-!
Verification of the NYC-Subway-ETA fusion and routing engine
(`backend/app/core/routing.py`, `graph.py`, `gtfs_rt.py`, `cache.py`)
against its natural-language specification.

The Python code is shallowly embedded: dictionaries become association
lists (preserving insertion order, as Python dicts do), machine integers
become `Nat`/`Int`, fallible code returns `Option`/`Except`, and the
`heapq` priority queue becomes a list with a deterministic minimum-pop.
Presentation-only fields of a route leg (stop names, direction label,
line color, instruction text) are omitted: no leg-construction logic
reads them.
-/

namespace SubwayEta

/-- One adjacency entry of the loaded graph: the dict
`route_id / travel_time / is_transfer / transfer_penalty`
stored in `self.graph[from][to]` lists (`graph.py`, `routing.py`). -/
structure Conn where
  route_id : String
  travel_time : Nat
  is_transfer : Bool
  transfer_penalty : Nat
deriving DecidableEq, Repr

/-- A path edge tuple `(from_stop, to_stop, route_id, travel_time, is_transfer)`
as produced by `RoutePlanner._dijkstra`. -/
structure Edge where
  from_stop : String
  to_stop : String
  route_id : String
  travel_time : Nat
  is_transfer : Bool
deriving DecidableEq, Repr

/-- A cached arrival prediction (`app.models.dto.Arrival`). -/
structure Arrival where
  route_id : String
  headsign : String
  eta_s : Int
deriving DecidableEq, Repr

/-- A response leg (`app.models.dto.RouteLeg`), presentational fields omitted. -/
structure RouteLeg where
  route_id : String
  from_stop_id : String
  to_stop_id : String
  board_in_s : Int
  run_s : Nat
  transfer : Bool
deriving DecidableEq, Repr

/-- A route response (`app.models.dto.RouteResponse`); `alerts` is always `[]`
in the code, kept as a list of strings. -/
structure RouteResponse where
  legs : List RouteLeg
  transfers : Nat
  total_eta_s : Int
  alerts : List String
deriving DecidableEq, Repr

/-- The in-memory graph `Dict[str, Dict[str, List[Dict]]]`, embedded as
nested association lists in insertion order. -/
abbrev Graph := List (String × List (String × List Conn))

/-- Python `stop in self.graph`: membership among the outer keys. -/
def Graph.isKey (g : Graph) (s : String) : Bool :=
  g.any (fun p => p.1 == s)

/-- Python `self.graph.get(stop, \x7b\x7d)`: the adjacency list of a node
(empty when the node is absent). -/
def Graph.adj (g : Graph) (s : String) : List (String × List Conn) :=
  match g.find? (fun p => p.1 == s) with
  | some p => p.2
  | none => []

/-- The connection list `self.graph[f][t]` (empty when absent). -/
def Graph.connList (g : Graph) (f t : String) : List Conn :=
  match (Graph.adj g f).find? (fun p => p.1 == t) with
  | some p => p.2
  | none => []

/-- `self.graph[f][t].append c`, inner dict: append `c` under the key `t`,
creating it at the end when missing. -/
def Graph.addDest (t : String) (c : Conn) :
    List (String × List Conn) → List (String × List Conn)
  | [] => [(t, [c])]
  | (k2, cs) :: rest2 =>
    if k2 = t then (k2, cs ++ [c]) :: rest2
    else (k2, cs) :: Graph.addDest t c rest2

/-- `self.graph[f][t].append c` on a `defaultdict`: creates missing keys at
the end of the dict (Python insertion order), appends `c` to the list. -/
def Graph.addConn (g : Graph) (f t : String) (c : Conn) : Graph :=
  match g with
  | [] => [(f, [(t, [c])])]
  | (k, dests) :: rest =>
    if k = f then
      (k, Graph.addDest t c dests) :: rest
    else
      (k, dests) :: Graph.addConn rest f t c

/-- The graph holds connection `c` on the ordered pair `(f, t)` (reading
through `Graph.adj`, exactly as the router does). -/
def HasConn (g : Graph) (f t : String) (c : Conn) : Prop :=
  ∃ pr ∈ Graph.adj g f, pr.1 = t ∧ c ∈ pr.2

/-- The direction marker characters. -/
def dirChars : List Char := ['N', 'S', 'E', 'W']

/-- Python `s.endswith(('N', 'S', 'E', 'W'))`. -/
def endsWithDir (s : String) : Bool :=
  match s.data.getLast? with
  | some c => dirChars.contains c
  | none => false

/-- Python `s[:-1]` when the last character is a direction marker,
else `s` (`_clean_stop_id` and base-id stripping). -/
def stripDir (s : String) : String :=
  match s.data.getLast? with
  | some c => if dirChars.contains c then String.mk s.data.dropLast else s
  | none => s

/-- `RoutePlanner._get_directional_stop_ids`: the directional variations of a
stop id that exist in the graph. -/
def directionalStopIds (g : Graph) (base_stop_id : String) : List String :=
  if endsWithDir base_stop_id then
    if Graph.isKey g base_stop_id then [base_stop_id] else []
  else
    (["N", "S", "E", "W"].map (fun d => base_stop_id ++ d)).filter (Graph.isKey g)

/-- `min(route_arrivals, key=lambda a: a.eta_s).eta_s` on a non-empty list. -/
def minEtaOf (a : Arrival) (rest : List Arrival) : Int :=
  rest.foldl (fun m x => if x.eta_s < m then x.eta_s else m) a.eta_s

/-- One iteration of the direction loop in
`RoutePlanner._get_live_boarding_time`: look up the cache at
`(stop_id, dir)`, filter the arrivals by route, return the minimum
`eta_s` when any match, `none` otherwise. -/
def tryDirection (cache : String → String → Option (List Arrival))
    (stop_id route_id dir : String) : Option Int :=
  match cache stop_id dir with
  | none => none
  | some arrivals =>
    match arrivals.filter (fun a => a.route_id == route_id) with
    | [] => none
    | a :: rest => some (minEtaOf a rest)

/-- `RoutePlanner._get_live_boarding_time`: try the directions
`N, S, E, W` in order; the first direction whose cache entry holds a
matching arrival wins with its minimum `eta_s`. -/
def getLiveBoardingTime (cache : String → String → Option (List Arrival))
    (stop_id route_id : String) : Option Int :=
  match tryDirection cache stop_id route_id "N" with
  | some v => some v
  | none =>
    match tryDirection cache stop_id route_id "S" with
    | some v => some v
    | none =>
      match tryDirection cache stop_id route_id "E" with
      | some v => some v
      | none => tryDirection cache stop_id route_id "W"

/-- The enumerated loop body of `RoutePlanner._path_to_legs`: `i` is the
index of the edge in the full path (`enumerate(path)`); transfer edges are
skipped; the first-leg live overlay fires only when `i == 0`; the leg's
`transfer` flag is `(i > 0)`. -/
def pathToLegsAux (cache : String → String → Option (List Arrival)) :
    Nat → List Edge → List RouteLeg
  | _, [] => []
  | i, e :: rest =>
    if e.is_transfer then
      pathToLegsAux cache (i + 1) rest
    else
      let board : Int :=
        if i = 0 then
          match getLiveBoardingTime cache e.from_stop e.route_id with
          | some v => v
          | none => (e.travel_time : Int)
        else (e.travel_time : Int)
      { route_id := e.route_id
        from_stop_id := e.from_stop
        to_stop_id := e.to_stop
        board_in_s := board
        run_s := e.travel_time
        transfer := decide (0 < i) } :: pathToLegsAux cache (i + 1) rest

/-- `RoutePlanner._path_to_legs`: `None` on an empty path, otherwise the
leg list built by the enumerated loop. -/
def pathToLegs (cache : String → String → Option (List Arrival))
    (path : List Edge) : Option (List RouteLeg) :=
  if path = [] then none else some (pathToLegsAux cache 0 path)

/-- A priority-queue entry `(total_cost, current_stop, transfers_count, path)`
of `RoutePlanner._dijkstra`. -/
structure Entry where
  cost : Nat
  stop : String
  transfers : Nat
  path : List Edge
deriving DecidableEq, Repr

/-- Python string comparison: lexicographic over code points. -/
def charListLt : List Char → List Char → Bool
  | [], [] => false
  | [], _ :: _ => true
  | _ :: _, [] => false
  | a :: as, b :: bs => a < b || (a = b && charListLt as bs)

/-- Python `s < t` on strings. -/
def strLt (s t : String) : Bool := charListLt s.data t.data

/-- The heap key: Python's `heapq` pops the tuple-lexicographically least
entry, comparing `total_cost`, then `current_stop`, then `transfers_count`
(the path only breaks exact ties of all three, which never arise in the
developments below). -/
def entryLe (a b : Entry) : Bool :=
  a.cost < b.cost ||
    (a.cost = b.cost &&
      (strLt a.stop b.stop || (a.stop = b.stop && a.transfers ≤ b.transfers)))

/-- `heapq.heappop`: remove the least entry (leftmost among key ties). -/
def popMin : List Entry → Option (Entry × List Entry)
  | [] => none
  | e :: rest =>
    match popMin rest with
    | none => some (e, [])
    | some mr =>
      if entryLe e mr.1 then some (e, rest) else some (mr.1, e :: mr.2)

/-- The `best_costs` defaultdict, `none` standing for `float(\x27inf\x27)`. -/
abbrev BestCosts := List ((String × Nat) × Nat)

/-- `best_costs[state]` with default infinity. -/
def costOf (bc : BestCosts) (st : String × Nat) : Option Nat :=
  match bc.find? (fun p => p.1 == st) with
  | some p => some p.2
  | none => none

/-- `new_cost < best_costs[new_state]` (anything beats infinity). -/
def improves (bc : BestCosts) (st : String × Nat) (newCost : Nat) : Bool :=
  match costOf bc st with
  | none => true
  | some c => newCost < c

/-- `best_costs[new_state] = new_cost`. -/
def setCost (bc : BestCosts) (st : String × Nat) (newCost : Nat) : BestCosts :=
  match bc with
  | [] => [(st, newCost)]
  | p :: rest => if p.1 = st then (st, newCost) :: rest else p :: setCost rest st newCost

/-- Relaxation of a single connection inside the neighbor loops of
`RoutePlanner._dijkstra`: reject when the transfer bound is exceeded,
otherwise update `best_costs` and push the extended path when the new
cost improves. -/
def relaxConn (maxTransfers : Nat) (cur : Entry) (nextStop : String) (c : Conn)
    (st : List Entry × BestCosts) : List Entry × BestCosts :=
  let nt := cur.transfers + (if c.is_transfer then 1 else 0)
  if maxTransfers < nt then st
  else
    let newCost := cur.cost + (c.travel_time + c.transfer_penalty)
    if improves st.2 (nextStop, nt) newCost then
      (st.1 ++ [{ cost := newCost, stop := nextStop, transfers := nt,
                  path := cur.path ++
                    [{ from_stop := cur.stop, to_stop := nextStop,
                       route_id := c.route_id, travel_time := c.travel_time,
                       is_transfer := c.is_transfer }] }],
       setCost st.2 (nextStop, nt) newCost)
    else st

/-- The two nested neighbor loops (`for next_stop, connections in ...` and
`for conn in connections`), threading the queue and `best_costs`. -/
def relaxAll (maxTransfers : Nat) (cur : Entry)
    (neighbors : List (String × List Conn))
    (st : List Entry × BestCosts) : List Entry × BestCosts :=
  neighbors.foldl
    (fun acc p => p.2.foldl (fun acc2 c => relaxConn maxTransfers cur p.1 c acc2) acc)
    st

/-- The `while pq:` loop of `RoutePlanner._dijkstra`, with explicit fuel
standing for the (finitely many) iterations the Python loop performs. -/
def dijkstraLoop (g : Graph) (endStop : String) (maxTransfers : Nat) :
    Nat → List Entry → List (String × Nat) → BestCosts → Option (List Edge)
  | 0, _, _, _ => none
  | fuel + 1, pq, visited, bc =>
    match popMin pq with
    | none => none
    | some er =>
      if visited.contains (er.1.stop, er.1.transfers) then
        dijkstraLoop g endStop maxTransfers fuel er.2 visited bc
      else
        let visited2 := (er.1.stop, er.1.transfers) :: visited
        if er.1.stop = endStop then some er.1.path
        else if maxTransfers < er.1.transfers then
          dijkstraLoop g endStop maxTransfers fuel er.2 visited2 bc
        else
          let st := relaxAll maxTransfers er.1 (Graph.adj g er.1.stop) (er.2, bc)
          dijkstraLoop g endStop maxTransfers fuel st.1 visited2 st.2

/-- `RoutePlanner._dijkstra`: start from `(0, start, 0, [])`. -/
def dijkstra (g : Graph) (start endStop : String) (maxTransfers fuel : Nat) :
    Option (List Edge) :=
  dijkstraLoop g endStop maxTransfers fuel
    [{ cost := 0, stop := start, transfers := 0, path := [] }] [] []

/-- `sum(edge[3] for edge in path)`: the travel-time sum over all edges of a
path, the quantity the outer search compares. -/
def pathTravelSum (p : List Edge) : Nat :=
  (p.map Edge.travel_time).sum

/-- The travel-time sum over the non-transfer edges of a path only. -/
def nonTransferTravelSum (p : List Edge) : Nat :=
  ((p.filter (fun e => !e.is_transfer)).map Edge.travel_time).sum

/-- A path edge is backed by the graph: the adjacency of its from-stop
holds a connection with the same target, route, travel time and flag. -/
def EdgeBacked (g : Graph) (e : Edge) : Prop :=
  ∃ pr ∈ Graph.adj g e.from_stop, pr.1 = e.to_stop ∧
    ∃ c ∈ pr.2, c.route_id = e.route_id ∧ c.travel_time = e.travel_time ∧
      c.is_transfer = e.is_transfer

/-- Every edge of the path is backed by the graph. -/
def GoodPath (g : Graph) (p : List Edge) : Prop := ∀ e ∈ p, EdgeBacked g e

/-- Invariant I3 as loaded: every transfer connection of the graph has
zero travel time. -/
def TransfersZero (g : Graph) : Prop :=
  ∀ q ∈ g, ∀ pr ∈ q.2, ∀ c ∈ pr.2, c.is_transfer = true → c.travel_time = 0

/-- The candidate-pair loop of `RoutePlanner.find_best_route`: skip pairs
with equal endpoints, run the inner search, keep the path with the
strictly smallest travel-time sum (`best_cost` starts at infinity; an
empty path is falsy in Python and is treated as no path). -/
def selectStep (g : Graph) (maxTransfers fuel : Nat)
    (acc : Option (List Edge) × Option Nat) (pr : String × String) :
    Option (List Edge) × Option Nat :=
  if pr.1 = pr.2 then acc
  else
    match dijkstra g pr.1 pr.2 maxTransfers fuel with
    | none => acc
    | some path =>
      if path = [] then acc
      else
        let cost := pathTravelSum path
        match acc.2 with
        | none => (some path, some cost)
        | some best => if cost < best then (some path, some cost) else acc

/-- The outer search over `from_options × to_options` in iteration order. -/
def selectBestPath (g : Graph) (fromOptions toOptions : List String)
    (maxTransfers fuel : Nat) : Option (List Edge) :=
  ((fromOptions.flatMap (fun f => toOptions.map (fun t => (f, t)))).foldl
    (selectStep g maxTransfers fuel) (none, none)).1

/-- `sum(1 for leg in legs if leg.transfer)`. -/
def countTransfers (legs : List RouteLeg) : Nat :=
  (legs.filter RouteLeg.transfer).length

/-- `sum(leg.board_in_s + leg.run_s for leg in legs)`. -/
def totalEta (legs : List RouteLeg) : Int :=
  (legs.map (fun l => l.board_in_s + (l.run_s : Int))).sum

/-- `RoutePlanner.find_best_route`: expand both endpoints, fail when either
expansion is empty, short-circuit equal inputs to an empty itinerary, run
the outer search, convert the best path to legs (`if not legs: return
None`), and fill in the totals. -/
def findBestRoute (g : Graph) (cache : String → String → Option (List Arrival))
    (from_stop_id to_stop_id : String) (maxTransfers fuel : Nat) :
    Option RouteResponse :=
  let fromOptions := directionalStopIds g from_stop_id
  let toOptions := directionalStopIds g to_stop_id
  if fromOptions = [] then none
  else if toOptions = [] then none
  else if from_stop_id = to_stop_id then
    some { legs := [], transfers := 0, total_eta_s := 0, alerts := [] }
  else
    match selectBestPath g fromOptions toOptions maxTransfers fuel with
    | none => none
    | some best =>
      match pathToLegs cache best with
      | none => none
      | some [] => none
      | some legs =>
        some { legs := legs, transfers := countTransfers legs,
               total_eta_s := totalEta legs, alerts := [] }

/-! ### Graph compiler (`graph.py`) -/

/-- A `stop_times` row (the columns the compiler reads). -/
structure StopTimeRow where
  trip_id : String
  stop_id : String
  stop_sequence : Nat
  arrival_time : Option String
  departure_time : Option String
deriving DecidableEq, Repr

/-- A `trips` row (the columns the compiler reads). -/
structure TripRow where
  trip_id : String
  route_id : String
deriving DecidableEq, Repr

/-- A `transfers` row. -/
structure TransferRow where
  from_stop_id : String
  to_stop_id : String
  transfer_type : Nat
  min_transfer_time : Option Nat
deriving DecidableEq, Repr

/-- A materialized `station_graph` row. -/
structure EdgeRow where
  from_stop_id : String
  to_stop_id : String
  route_id : String
  travel_time_seconds : Nat
  is_transfer : Bool
  transfer_penalty_seconds : Nat
deriving DecidableEq, Repr

/-- The Static Store contents the compiler reads: the `stop_id` column of
the stops table, and the trips, stop_times and transfers tables. -/
structure StaticStore where
  stops : List String
  trips : List TripRow
  stop_times : List StopTimeRow
  transfers : List TransferRow
deriving Repr

/-- Digit parsing for Python `int(...)` on a GTFS time component
(digits, with an optional leading minus sign). -/
def parseNatChars : List Char → Option Nat
  | [] => none
  | cs =>
    cs.foldl
      (fun acc c =>
        match acc with
        | none => none
        | some n => if c.isDigit then some (n * 10 + (c.toNat - 48)) else none)
      (some 0)

/-- Python `int(s)` on a time component string. -/
def parseIntStr (s : String) : Option Int :=
  match s.data with
  | '-' :: rest => (parseNatChars rest).map (fun n => -(n : Int))
  | cs => (parseNatChars cs).map (fun n => (n : Int))

/-- Splitting a character list on `:` (Python `time_str.split(&#58;)`
restated over the string's characters). -/
def splitColon : List Char → List (List Char)
  | [] => [[]]
  | c :: rest =>
    let r := splitColon rest
    if c = ':' then [] :: r
    else
      match r with
      | [] => [[c]]
      | grp :: grps => (c :: grp) :: grps

/-- `StationGraphBuilder._parse_gtfs_time`: empty input returns 0; the
formula is `H*3600 + M*60 + S`, permitting hours above 24; `none` models
the exceptions (`IndexError` on too few parts, `ValueError` on bad
digits) that the caller turns into the default weight. -/
def parseGtfsTime (time_str : String) : Option Int :=
  if time_str = "" then some 0
  else
    match splitColon time_str.data with
    | h :: m :: s :: _ =>
      match parseIntStr (String.mk h), parseIntStr (String.mk m), parseIntStr (String.mk s) with
      | some hours, some minutes, some seconds =>
        some (hours * 3600 + minutes * 60 + seconds)
      | _, _, _ => none
    | _ => none

/-- A row of the consecutive-stop SQL query (`SELECT DISTINCT st1.stop_id,
st2.stop_id, t.route_id, st1.departure_time, st2.arrival_time, ...`);
the `WHERE` clause guarantees both times are present. -/
structure CandRow where
  from_stop : String
  to_stop : String
  route_id : String
  departure_time : String
  arrival_time : String
deriving DecidableEq, Repr

/-- The join of `stop_times` with itself on `stop_sequence + 1` within a
trip and with `trips` on `trip_id`, keeping only rows where
`st1.departure_time` and `st2.arrival_time` are non-null. -/
def joinRows (stop_times : List StopTimeRow) (trips : List TripRow) : List CandRow :=
  stop_times.flatMap (fun st1 =>
    stop_times.flatMap (fun st2 =>
      if st1.trip_id == st2.trip_id && st2.stop_sequence == st1.stop_sequence + 1 then
        match st1.departure_time, st2.arrival_time with
        | some dep, some arr =>
          (trips.filter (fun t => t.trip_id == st1.trip_id)).map (fun t =>
            { from_stop := st1.stop_id, to_stop := st2.stop_id,
              route_id := t.route_id, departure_time := dep, arrival_time := arr })
        | _, _ => []
      else []))

/-- `ORDER BY st1.stop_id, st2.stop_id, t.route_id` as a boolean
comparison on the sort columns. -/
def rowLe (a b : CandRow) : Bool :=
  strLt a.from_stop b.from_stop ||
    (a.from_stop = b.from_stop &&
      (strLt a.to_stop b.to_stop ||
        (a.to_stop = b.to_stop &&
          (strLt a.route_id b.route_id || a.route_id = b.route_id))))

/-- Stable insertion into a sorted list. -/
def insertSorted {α : Type} (le : α → α → Bool) (a : α) : List α → List α
  | [] => [a]
  | b :: rest => if le a b then a :: b :: rest else b :: insertSorted le a rest

/-- Stable insertion sort, modelling the SQL `ORDER BY`. -/
def sortByLe {α : Type} (le : α → α → Bool) (l : List α) : List α :=
  l.foldr (insertSorted le) []

/-- The result set of the consecutive-stop query: `DISTINCT` rows in
`ORDER BY` order. -/
def candRows (stop_times : List StopTimeRow) (trips : List TripRow) : List CandRow :=
  sortByLe rowLe (joinRows stop_times trips).dedup

/-- Weight of one query row: `max(60, arr - dep)` seconds, or the 120 s
default when either time fails to parse (the bare `except`). -/
def rowWeight (r : CandRow) : Nat :=
  match parseGtfsTime r.departure_time, parseGtfsTime r.arrival_time with
  | some dep, some arr => (max 60 (arr - dep)).toNat
  | _, _ => 120

/-- A Python `dict`-of-lists append (`connections[key].append(v)` on a
`defaultdict(list)`): new keys go to the end, in insertion order. -/
def groupInsert {κ α : Type} [DecidableEq κ] :
    List (κ × List α) → κ → α → List (κ × List α)
  | [], k, a => [(k, [a])]
  | (k0, l0) :: rest, k, a =>
    if k = k0 then (k0, l0 ++ [a]) :: rest else (k0, l0) :: groupInsert rest k a

/-- Accumulate a whole pair list into a `defaultdict(list)`. -/
def groupAll {κ α : Type} [DecidableEq κ] (l : List (κ × α)) : List (κ × List α) :=
  l.foldl (fun m p => groupInsert m p.1 p.2) []

/-- Lookup in a grouped dict, empty when absent. -/
def lookupList {κ α : Type} [DecidableEq κ] : List (κ × List α) → κ → List α
  | [], _ => []
  | (k0, l0) :: rest, k => if k = k0 then l0 else lookupList rest k

/-- `StationGraphBuilder._build_consecutive_connections`: group the query
rows' weights by `(from, to, route)` and append one non-transfer
connection per key with the floor of the arithmetic mean (Python
`int(sum(times) / len(times))`, a floor for the non-negative weights
involved). -/
def buildConsecutiveConnections (stop_times : List StopTimeRow)
    (trips : List TripRow) (g : Graph) : Graph :=
  (groupAll ((candRows stop_times trips).map (fun r =>
    ((r.from_stop, r.to_stop, r.route_id), rowWeight r)))).foldl
    (fun acc kv =>
      Graph.addConn acc kv.1.1 kv.1.2.1
        { route_id := kv.1.2.2, travel_time := kv.2.sum / kv.2.length,
          is_transfer := false, transfer_penalty := 0 })
    g

/-- The weights of the query rows for one `(from, to, route)` key, in
result-set order. -/
def consecWeights (stop_times : List StopTimeRow) (trips : List TripRow)
    (f t r : String) : List Nat :=
  (candRows stop_times trips).filterMap (fun row =>
    if row.from_stop = f ∧ row.to_stop = t ∧ row.route_id = r then
      some (rowWeight row)
    else none)

/-- `StationGraphBuilder._get_directional_variations`: unconditional
directional expansion (no graph filtering). -/
def directionalVariations (s : String) : List String :=
  if endsWithDir s then [s] else ["N", "S", "E", "W"].map (fun d => s ++ d)

/-- The declared-transfer penalty: `min_transfer_time` when truthy
(Python treats 0 as falsy), else 180 s for types 0 and 1
(`settings.transfer_penalty_min`) and 300 s otherwise
(`settings.transfer_penalty_max`). -/
def transferTime (t : TransferRow) : Nat :=
  match t.min_transfer_time with
  | some v =>
    if v ≠ 0 then v
    else if t.transfer_type = 0 ∨ t.transfer_type = 1 then 180 else 300
  | none => if t.transfer_type = 0 ∨ t.transfer_type = 1 then 180 else 300

/-- The explicit-transfer part of
`StationGraphBuilder._build_transfer_connections`: skip same-stop and
type-3 rows, expand both endpoints directionally, append a `TRANSFER`
edge for every combination. -/
def buildExplicitTransfers (transfers : List TransferRow) (g : Graph) : Graph :=
  transfers.foldl
    (fun acc tr =>
      if tr.from_stop_id == tr.to_stop_id || tr.transfer_type == 3 then acc
      else
        (directionalVariations tr.from_stop_id).foldl
          (fun acc2 fd =>
            (directionalVariations tr.to_stop_id).foldl
              (fun acc3 td =>
                Graph.addConn acc3 fd td
                  { route_id := "TRANSFER", travel_time := 0,
                    is_transfer := true, transfer_penalty := transferTime tr })
              acc2)
          acc)
    g

/-- The intra-station platform transfer connection dict the code appends:
`route_id = PLATFORM_TRANSFER`, zero travel, `is_transfer`, penalty 300 s. -/
def platformTransferConn : Conn :=
  { route_id := "PLATFORM_TRANSFER", travel_time := 0,
    is_transfer := true, transfer_penalty := 300 }

/-- The per-base-station body of
`StationGraphBuilder._build_intra_station_transfers`: collect the
directional platforms of `base` that are keys of the graph built so far,
and when more than one exists append a `PLATFORM_TRANSFER` edge for
every ordered distinct pair. -/
def intraForBase (acc : Graph) (base : String) : Graph :=
  let platforms :=
    (["N", "S", "E", "W"].map (fun d => base ++ d)).filter (Graph.isKey acc)
  if platforms.length ≤ 1 then acc
  else
    platforms.foldl
      (fun acc2 p =>
        platforms.foldl
          (fun acc3 q =>
            if p == q then acc3
            else Graph.addConn acc3 p q platformTransferConn)
          acc2)
      acc

/-- `StationGraphBuilder._build_intra_station_transfers`: the per-base
body over every distinct stop id of the stops table. -/
def buildIntraStationTransfers (stops : List String) (g : Graph) : Graph :=
  stops.dedup.foldl intraForBase g

/-- `StationGraphBuilder._save_graph_to_db`: flatten the in-memory graph
into the rows bulk-inserted after the `DELETE` (iteration order of the
nested dicts). -/
def graphEdges (g : Graph) : List EdgeRow :=
  g.flatMap (fun fp =>
    fp.2.flatMap (fun tp =>
      tp.2.map (fun c =>
        { from_stop_id := fp.1, to_stop_id := tp.1, route_id := c.route_id,
          travel_time_seconds := c.travel_time, is_transfer := c.is_transfer,
          transfer_penalty_seconds := c.transfer_penalty })))

/-- `StationGraphBuilder.build_graph` on the builder state `g`
(`self.graph`, which the method never resets): consecutive connections,
then declared transfers, then intra-station transfers, then the saved
row list. Returns the new builder state and the committed rows. -/
def buildGraph (store : StaticStore) (g : Graph) : Graph × List EdgeRow :=
  let g1 := buildConsecutiveConnections store.stop_times store.trips g
  let g2 := buildExplicitTransfers store.transfers g1
  let g3 := buildIntraStationTransfers store.stops g2
  (g3, graphEdges g3)

/-! ### Feed poller (`gtfs_rt.py`) -/

/-- A `stop_time_update` message: optional arrival and departure epochs. -/
structure StopTimeUpdate where
  stop_id : String
  arrival : Option Int
  departure : Option Int
deriving DecidableEq, Repr

/-- A `trip_update` message. -/
structure TripUpdate where
  trip_id : String
  route_id : String
  stop_time_update : List StopTimeUpdate
deriving DecidableEq, Repr

/-- A feed entity: `none` when `entity.HasField(&#39;trip_update&#39;)` is false. -/
abbrev FeedEntity := Option TripUpdate

/-- `GTFSRealtimeFetcher._infer_direction_from_stop_id`: only the suffixes
`N` and `S` are recognized (the E/W cases are an unimplemented TODO in
the code). -/
def inferDirection (stop_id : String) : Option String :=
  if stop_id.data.getLast? = some 'N' then some "N"
  else if stop_id.data.getLast? = some 'S' then some "S"
  else none

/-- `GTFSRealtimeFetcher._get_headsign_for_trip`. -/
def headsignForTrip (_trip_id route_id : String) : String :=
  route_id ++ " Train"

/-- One `stop_time_update` inside `_process_trip_updates`: infer the
direction (dropping the update when none), strip the direction suffix
(`_clean_stop_id`, embedded as `stripDir`), take `arrival.time` else
`departure.time` else drop, compute `eta = t - now`, drop when negative
or above 3600, and emit the keyed arrival. -/
def processSTU (route_id headsign : String) (now : Int) (stu : StopTimeUpdate) :
    Option ((String × String) × Arrival) :=
  match inferDirection stu.stop_id with
  | none => none
  | some dir =>
    let clean := stripDir stu.stop_id
    let etaOpt : Option Int :=
      match stu.arrival with
      | some t => some (t - now)
      | none =>
        match stu.departure with
        | some t => some (t - now)
        | none => none
    match etaOpt with
    | none => none
    | some eta =>
      if eta < 0 then none
      else if 3600 < eta then none
      else some ((clean, dir), { route_id := route_id, headsign := headsign, eta_s := eta })

/-- The flat list of keyed arrivals a feed emits, in processing order. -/
def emittedArrivals (feed : List FeedEntity) (now : Int) :
    List ((String × String) × Arrival) :=
  feed.flatMap (fun ent =>
    match ent with
    | none => []
    | some tu =>
      tu.stop_time_update.filterMap
        (processSTU tu.route_id (headsignForTrip tu.trip_id tu.route_id) now))

/-- `GTFSRealtimeFetcher._process_trip_updates`: the emitted arrivals
grouped by `(clean_stop_id, direction)` in dict insertion order. -/
def processTripUpdates (feed : List FeedEntity) (now : Int) :
    List ((String × String) × List Arrival) :=
  groupAll (emittedArrivals feed now)

/-! ### Arrivals cache (`cache.py`) -/

/-- The outcome of `self.redis.get(key)`: a raised error, a missing key,
or a stored payload string. -/
inductive RedisResult where
  | err (msg : String)
  | missing
  | val (payload : String)
deriving DecidableEq, Repr

/-- `ArrivalsCache._make_key`. -/
def makeKey (stop_id direction : String) : String :=
  "arrivals:" ++ stop_id ++ ":" ++ direction

/-- The body of `ArrivalsCache.get_arrivals` before the `except` handler:
`Except` models the exceptions the body can raise (a Redis failure, or a
malformed payload rejected by `json.loads` / the `Arrival` constructor,
modelled by the abstract decoder returning `none`). An empty payload is
falsy (`if not data`) and reads as absent. -/
def getArrivalsRaw (redisGet : String → RedisResult)
    (decodePayload : String → Option (List Arrival))
    (stop_id direction : String) : Except String (Option (List Arrival)) :=
  match redisGet (makeKey stop_id direction) with
  | RedisResult.err m => Except.error m
  | RedisResult.missing => Except.ok none
  | RedisResult.val s =>
    if s = "" then Except.ok none
    else
      match decodePayload s with
      | none => Except.error "malformed payload"
      | some l => Except.ok (some l)

/-- `ArrivalsCache.get_arrivals`: the `except Exception: return None`
handler around the body. -/
def getArrivals (redisGet : String → RedisResult)
    (decodePayload : String → Option (List Arrival))
    (stop_id direction : String) : Option (List Arrival) :=
  match getArrivalsRaw redisGet decodePayload stop_id direction with
  | Except.error _ => none
  | Except.ok r => r

/-! ### Spec-side definitions

Definitions written from the specification's words, used to compare the
spec's prescription with the embedded code on concrete inputs. -/

/-- Modelled from the spec (claim C2): consult the cache at
`(base_stop_id_of(first_leg.from), dir)` for every direction, gather the
predictions whose route matches, take the minimum `eta_seconds` across
all four directions, and fall back to the first edge's travel time. -/
def specFirstLegBoard (cache : String → String → Option (List Arrival))
    (from_stop route_id : String) (travel : Nat) : Int :=
  let preds := ["N", "S", "E", "W"].flatMap (fun d =>
    match cache (stripDir from_stop) d with
    | none => []
    | some l => l.filter (fun a => a.route_id == route_id))
  match preds with
  | [] => (travel : Int)
  | a :: rest => minEtaOf a rest

/-- Modelled from the spec (claim C7): the direction is the last character
of the stop id when it lies in the set N, S, E, W. -/
def specDirection (s : String) : Option String :=
  match s.data.getLast? with
  | some c => if dirChars.contains c then some (String.mk [c]) else none
  | none => none

/-- The transfer penalty the loaded graph carries for a path edge (the
connection matching the edge's route, travel time and transfer flag). -/
def connPenalty (g : Graph) (e : Edge) : Nat :=
  match (Graph.connList g e.from_stop e.to_stop).find?
      (fun c => c.route_id == e.route_id && c.travel_time == e.travel_time &&
        c.is_transfer == e.is_transfer) with
  | some c => c.transfer_penalty
  | none => 0

/-- Modelled from the spec (claim C3): the cumulative edge cost of a path,
`travel_time_seconds + transfer_penalty_seconds` summed over all edges. -/
def pathEdgeCost (g : Graph) (p : List Edge) : Nat :=
  (p.map (fun e => e.travel_time + connPenalty g e)).sum

/-- Modelled from the spec (claim C8): the candidate weight of an adjacent
stop-time pair, `120` when either timestamp is missing or unparsable,
otherwise `max(60, arrival_at_next - departure_at_current)`. -/
def specPairWeight (dep arr : Option String) : Nat :=
  match dep, arr with
  | some d, some a =>
    match parseGtfsTime d, parseGtfsTime a with
    | some dv, some av => (max 60 (av - dv)).toNat
    | _, _ => 120
  | _, _ => 120

/-! ### Concrete instances used by the claim theorems -/

/-- An intra-station platform transfer connection as the compiler emits it. -/
def ptConn : Conn :=
  { route_id := "PLATFORM_TRANSFER", travel_time := 0,
    is_transfer := true, transfer_penalty := 300 }

/-- A 300 s revenue connection on route R. -/
def rConn : Conn :=
  { route_id := "R", travel_time := 300, is_transfer := false, transfer_penalty := 0 }

/-- A 60 s revenue connection on route R (only there so that `BN` is a
graph key, as every loaded node with outgoing edges is). -/
def zConn : Conn :=
  { route_id := "R", travel_time := 60, is_transfer := false, transfer_penalty := 0 }

/-- Station A with platforms `AN`, `AS` joined by platform transfers, a
single ride `AS → BN`, and an onward edge out of `BN`. -/
def gC1 : Graph :=
  [ ("AN", [("AS", [ptConn])]),
    ("AS", [("AN", [ptConn]), ("BN", [rConn])]),
    ("BN", [("ZN", [zConn])]) ]

/-- A cache with no entries at all. -/
def emptyCache : String → String → Option (List Arrival) := fun _ _ => none

/-- The single leg the router returns for `gC1`, query A to B. -/
def legC1 : RouteLeg :=
  { route_id := "R", from_stop_id := "AS", to_stop_id := "BN",
    board_in_s := 300, run_s := 300, transfer := true }

/-- A declared inter-station transfer connection with penalty 300. -/
def tConn : Conn :=
  { route_id := "TRANSFER", travel_time := 0, is_transfer := true, transfer_penalty := 300 }

/-- A 100 s revenue connection on route R1. -/
def r1Conn : Conn :=
  { route_id := "R1", travel_time := 100, is_transfer := false, transfer_penalty := 0 }

/-- A 110 s revenue connection on route R2. -/
def r2Conn : Conn :=
  { route_id := "R2", travel_time := 110, is_transfer := false, transfer_penalty := 0 }

/-- From `AN` the only route to `BN` is a 300 s-penalty transfer plus a
100 s ride; from `AS` a direct 110 s ride. Travel sums are 100 versus
110, cumulative edge costs 400 versus 110. -/
def gC3 : Graph :=
  [ ("AN", [("CN", [tConn])]),
    ("CN", [("BN", [r1Conn])]),
    ("AS", [("BN", [r2Conn])]),
    ("BN", [("ZN", [zConn])]) ]

/-- The path the outer search retains on `gC3` for the query A to B. -/
def pathC3chosen : List Edge :=
  [ { from_stop := "AN", to_stop := "CN", route_id := "TRANSFER",
      travel_time := 0, is_transfer := true },
    { from_stop := "CN", to_stop := "BN", route_id := "R1",
      travel_time := 100, is_transfer := false } ]

/-- The competing inner path for the tried pair (AS, BN) on `gC3`. -/
def pathC3other : List Edge :=
  [ { from_stop := "AS", to_stop := "BN", route_id := "R2",
      travel_time := 110, is_transfer := false } ]

/-- A cache holding one matching arrival at the base id `A`, direction N. -/
def cacheC2 (s d : String) : Option (List Arrival) :=
  if s = "A" && d = "N" then
    some [{ route_id := "R", headsign := "R Train", eta_s := 50 }]
  else none

/-- A one-edge path whose first leg boards at the platform `AN`. -/
def pathC2 : List Edge :=
  [{ from_stop := "AN", to_stop := "BN", route_id := "R",
     travel_time := 300, is_transfer := false }]

/-- The leg the router produces from `pathC2` under `cacheC2`. -/
def legC2 : RouteLeg :=
  { route_id := "R", from_stop_id := "AN", to_stop_id := "BN",
    board_in_s := 300, run_s := 300, transfer := false }

/-- A store with one two-stop trip; its compiled graph has the single
edge `AN → BN` with the 120 s weight. -/
def storeC6 : StaticStore :=
  { stops := ["A"],
    trips := [{ trip_id := "T", route_id := "R" }],
    stop_times :=
      [ { trip_id := "T", stop_id := "AN", stop_sequence := 1,
          arrival_time := some "10:00:00", departure_time := some "10:00:00" },
        { trip_id := "T", stop_id := "BN", stop_sequence := 2,
          arrival_time := some "10:02:00", departure_time := some "10:02:00" } ],
    transfers := [] }

/-- The single row the first compiler run commits for `storeC6`. -/
def edgeC6 : EdgeRow :=
  { from_stop_id := "AN", to_stop_id := "BN", route_id := "R",
    travel_time_seconds := 120, is_transfer := false, transfer_penalty_seconds := 0 }

/-- A store with no stop_times and one declared transfer from base id A
to base id B: no consecutive-stop edge exists anywhere, yet the declared
transfer makes `AN`, `AS`, `AE`, `AW` sources of the in-progress graph. -/
def storeC5 : StaticStore :=
  { stops := ["A", "B"], trips := [], stop_times := [],
    transfers :=
      [{ from_stop_id := "A", to_stop_id := "B", transfer_type := 0,
         min_transfer_time := none }] }

/-- The intra-station platform transfer row the compiler emits for
`storeC5` between `AN` and `AS`. -/
def ptEdgeC5 : EdgeRow :=
  { from_stop_id := "AN", to_stop_id := "AS", route_id := "PLATFORM_TRANSFER",
    travel_time_seconds := 0, is_transfer := true, transfer_penalty_seconds := 300 }

/-- A feed with one trip update whose stop id carries the direction
suffix E and whose arrival lies 100 s after the cycle start. -/
def feedC7 : List FeedEntity :=
  [some { trip_id := "t1", route_id := "7",
          stop_time_update := [{ stop_id := "123E", arrival := some 1000, departure := none }] }]

/-- Stop-times of claim C8's counterexample: the first stop's departure
time is missing (NULL), the arrival at the next stop is present. -/
def stopTimesC8 : List StopTimeRow :=
  [ { trip_id := "T", stop_id := "X", stop_sequence := 1,
      arrival_time := some "10:00:00", departure_time := none },
    { trip_id := "T", stop_id := "Y", stop_sequence := 2,
      arrival_time := some "10:05:00", departure_time := some "10:05:00" } ]

/-- The trip table for claim C8's counterexample. -/
def tripsC8 : List TripRow := [{ trip_id := "T", route_id := "R" }]

/-- A cache with matching arrivals under the directional id `AN` in two
directions: N holds eta 40, S holds the smaller eta 20. -/
def cacheW2 (s d : String) : Option (List Arrival) :=
  if s = "AN" && d = "N" then
    some [{ route_id := "R", headsign := "R Train", eta_s := 40 }]
  else if s = "AN" && d = "S" then
    some [{ route_id := "R", headsign := "R Train", eta_s := 20 }]
  else none

/-- A Redis backend whose every read raises. -/
def downRedis : String → RedisResult := fun _ => RedisResult.err "connection refused"

/-- A payload decoder that rejects everything (malformed JSON). -/
def noDecode : String → Option (List Arrival) := fun _ => none

/-! ### Helper lemmas -/

/-- Every leg produced at an enumeration index at least 1 boards at its
own edge's scheduled travel time and carries `transfer = true`. -/
theorem pathToLegsAux_tail (cache : String → String → Option (List Arrival)) :
    ∀ (l : List Edge) (i : Nat), 1 ≤ i →
      ∀ leg ∈ pathToLegsAux cache i l,
        leg.board_in_s = (leg.run_s : Int) ∧ leg.transfer = true := by
  intro l
  induction l with
  | nil =>
    intro i _ leg hleg
    simp [pathToLegsAux] at hleg
  | cons e rest ih =>
    intro i hi leg hleg
    by_cases he : e.is_transfer
    · rw [pathToLegsAux, if_pos he] at hleg
      exact ih (i + 1) (by omega) leg hleg
    · rw [pathToLegsAux, if_neg he] at hleg
      rcases List.mem_cons.mp hleg with h | h
      · subst h
        have hi0 : ¬ i = 0 := by omega
        refine ⟨by simp [hi0], by simp [Nat.lt_of_lt_of_le Nat.zero_lt_one hi]⟩
      · exact ih (i + 1) (by omega) leg h

/-- Unfolding of the first leg when the path starts with a revenue edge:
the overlay fires with the code's `_get_live_boarding_time` (or falls back
to the edge's travel time), and the flag is `false`. -/
theorem pathToLegs_cons (cache : String → String → Option (List Arrival))
    (e : Edge) (rest : List Edge) (he : e.is_transfer = false) :
    pathToLegs cache (e :: rest) =
      some ({ route_id := e.route_id, from_stop_id := e.from_stop,
              to_stop_id := e.to_stop,
              board_in_s :=
                match getLiveBoardingTime cache e.from_stop e.route_id with
                | some v => v
                | none => (e.travel_time : Int),
              run_s := e.travel_time, transfer := false } ::
            pathToLegsAux cache 1 rest) := by
  rw [pathToLegs, if_neg (by simp)]
  rw [pathToLegsAux, if_neg (by simp [he])]
  simp

/-- One step of the candidate-pair loop: the kept cost matches the kept
path, never worsens, beats the step's own candidate, and the kept path is
either inherited or is the step's Dijkstra result. -/
theorem selectStep_spec (g : Graph) (mt fuel : Nat) (b0 : Option (List Edge))
    (c0 : Option Nat) (pr : String × String)
    (hv : (b0 = none ∧ c0 = none) ∨ ∃ b, b0 = some b ∧ c0 = some (pathTravelSum b)) :
    ((selectStep g mt fuel (b0, c0) pr).1 = none ∧
        (selectStep g mt fuel (b0, c0) pr).2 = none) ∨
      (∃ b, (selectStep g mt fuel (b0, c0) pr).1 = some b ∧
        (selectStep g mt fuel (b0, c0) pr).2 = some (pathTravelSum b)) := by
  unfold selectStep
  by_cases heq : pr.1 = pr.2
  · simp only [if_pos heq]; exact hv.imp id (fun ⟨b, h1, h2⟩ => ⟨b, h1, h2⟩)
  · simp only [if_neg heq]
    cases hd : dijkstra g pr.1 pr.2 mt fuel with
    | none => exact hv.imp id (fun ⟨b, h1, h2⟩ => ⟨b, h1, h2⟩)
    | some path =>
      by_cases hpe : path = []
      · simp only [if_pos hpe]; exact hv.imp id (fun ⟨b, h1, h2⟩ => ⟨b, h1, h2⟩)
      · simp only [if_neg hpe]
        cases c0 with
        | none => exact Or.inr ⟨path, rfl, rfl⟩
        | some best =>
          by_cases hlt : pathTravelSum path < best
          · simp only [if_pos hlt]; exact Or.inr ⟨path, rfl, rfl⟩
          · simp only [if_neg hlt]
            rcases hv with ⟨h1, h2⟩ | ⟨b, h1, h2⟩
            · cases h2
            · exact Or.inr ⟨b, h1, h2⟩

/-- One step never worsens the kept cost. -/
theorem selectStep_mono (g : Graph) (mt fuel : Nat) (b0 : Option (List Edge))
    (c0 : Option Nat) (pr : String × String) (c : Nat) (hc : c0 = some c) :
    ∃ c2, (selectStep g mt fuel (b0, c0) pr).2 = some c2 ∧ c2 ≤ c := by
  subst hc
  unfold selectStep
  by_cases heq : pr.1 = pr.2
  · simp only [if_pos heq]; exact ⟨c, rfl, le_rfl⟩
  · simp only [if_neg heq]
    cases hd : dijkstra g pr.1 pr.2 mt fuel with
    | none => exact ⟨c, rfl, le_rfl⟩
    | some path =>
      by_cases hpe : path = []
      · simp only [if_pos hpe]; exact ⟨c, rfl, le_rfl⟩
      · simp only [if_neg hpe]
        by_cases hlt : pathTravelSum path < c
        · simp only [if_pos hlt]; exact ⟨pathTravelSum path, rfl, le_of_lt hlt⟩
        · simp only [if_neg hlt]; exact ⟨c, rfl, le_rfl⟩

/-- After a step whose own candidate is a non-empty path for an unequal
pair, the kept cost is at most that candidate's travel sum. -/
theorem selectStep_beats (g : Graph) (mt fuel : Nat) (b0 : Option (List Edge))
    (c0 : Option Nat) (pr : String × String) (hne : pr.1 ≠ pr.2) (p : List Edge)
    (hd : dijkstra g pr.1 pr.2 mt fuel = some p) (hp : p ≠ []) :
    ∃ c2, (selectStep g mt fuel (b0, c0) pr).2 = some c2 ∧ c2 ≤ pathTravelSum p := by
  unfold selectStep
  simp only [if_neg hne, hd, if_neg hp]
  cases c0 with
  | none => exact ⟨pathTravelSum p, rfl, le_rfl⟩
  | some best =>
    by_cases hlt : pathTravelSum p < best
    · simp only [if_pos hlt]; exact ⟨pathTravelSum p, rfl, le_rfl⟩
    · simp only [if_neg hlt]; exact ⟨best, rfl, Nat.le_of_not_lt hlt⟩

/-- The kept path after a step is inherited or is the step's result. -/
theorem selectStep_source (g : Graph) (mt fuel : Nat) (b0 : Option (List Edge))
    (c0 : Option Nat) (pr : String × String) (b : List Edge)
    (hb : (selectStep g mt fuel (b0, c0) pr).1 = some b) :
    b0 = some b ∨ dijkstra g pr.1 pr.2 mt fuel = some b := by
  revert hb
  unfold selectStep
  by_cases heq : pr.1 = pr.2
  · simp only [if_pos heq]; exact fun h => Or.inl h
  · simp only [if_neg heq]
    cases hd : dijkstra g pr.1 pr.2 mt fuel with
    | none => exact fun h => Or.inl h
    | some path =>
      by_cases hpe : path = []
      · simp only [if_pos hpe]; exact fun h => Or.inl h
      · simp only [if_neg hpe]
        cases c0 with
        | none => intro h; cases h; exact Or.inr rfl
        | some best =>
          by_cases hlt : pathTravelSum path < best
          · simp only [if_pos hlt]; intro h; cases h; exact Or.inr rfl
          · simp only [if_neg hlt]; exact fun h => Or.inl h

/-- The full candidate-pair fold: shape of the result, minimality over
every processed pair that yielded a non-empty path, and provenance of
the kept path. -/
theorem selectFold_spec (g : Graph) (mt fuel : Nat) :
    ∀ (prs : List (String × String)) (b0 : Option (List Edge)) (c0 : Option Nat),
      ((b0 = none ∧ c0 = none) ∨ ∃ b, b0 = some b ∧ c0 = some (pathTravelSum b)) →
      (((prs.foldl (selectStep g mt fuel) (b0, c0)).1 = none ∧
          (prs.foldl (selectStep g mt fuel) (b0, c0)).2 = none) ∨
        (∃ b, (prs.foldl (selectStep g mt fuel) (b0, c0)).1 = some b ∧
          (prs.foldl (selectStep g mt fuel) (b0, c0)).2 = some (pathTravelSum b))) ∧
      (∀ c, c0 = some c →
        ∃ c2, (prs.foldl (selectStep g mt fuel) (b0, c0)).2 = some c2 ∧ c2 ≤ c) ∧
      (∀ pr ∈ prs, pr.1 ≠ pr.2 → ∀ p, dijkstra g pr.1 pr.2 mt fuel = some p →
        p ≠ [] →
        ∃ c2, (prs.foldl (selectStep g mt fuel) (b0, c0)).2 = some c2 ∧
          c2 ≤ pathTravelSum p) ∧
      (∀ b, (prs.foldl (selectStep g mt fuel) (b0, c0)).1 = some b →
        b0 = some b ∨ ∃ pr ∈ prs, dijkstra g pr.1 pr.2 mt fuel = some b) := by
  intro prs
  induction prs with
  | nil =>
    intro b0 c0 hv
    refine ⟨hv, ?_, ?_, ?_⟩
    · intro c hc; exact ⟨c, hc, le_rfl⟩
    · intro pr hpr; cases hpr
    · intro b hb; exact Or.inl hb
  | cons pr prs ih =>
    intro b0 c0 hv
    have hstep := selectStep_spec g mt fuel b0 c0 pr hv
    have hacc : selectStep g mt fuel (b0, c0) pr =
        ((selectStep g mt fuel (b0, c0) pr).1, (selectStep g mt fuel (b0, c0) pr).2) := rfl
    have ihres := ih (selectStep g mt fuel (b0, c0) pr).1
      (selectStep g mt fuel (b0, c0) pr).2 hstep
    rw [← hacc] at ihres
    have hfold : (pr :: prs).foldl (selectStep g mt fuel) (b0, c0) =
        prs.foldl (selectStep g mt fuel) (selectStep g mt fuel (b0, c0) pr) := rfl
    refine ⟨by rw [hfold]; exact ihres.1, ?_, ?_, ?_⟩
    · intro c hc
      obtain ⟨c1, hc1, hle1⟩ := selectStep_mono g mt fuel b0 c0 pr c hc
      obtain ⟨c2, hc2, hle2⟩ := ihres.2.1 c1 hc1
      rw [hfold]
      exact ⟨c2, hc2, le_trans hle2 hle1⟩
    · intro q hq hne p hd hp
      rw [hfold]
      rcases List.mem_cons.mp hq with h | h
      · subst h
        obtain ⟨c1, hc1, hle1⟩ := selectStep_beats g mt fuel b0 c0 q hne p hd hp
        obtain ⟨c2, hc2, hle2⟩ := ihres.2.1 c1 hc1
        exact ⟨c2, hc2, le_trans hle2 hle1⟩
      · exact ihres.2.2.1 q h hne p hd hp
    · intro b hb
      rw [hfold] at hb
      rcases ihres.2.2.2 b hb with h | ⟨q, hq, hd⟩
      · rcases selectStep_source g mt fuel b0 c0 pr b h with h2 | h2
        · exact Or.inl h2
        · exact Or.inr ⟨pr, List.mem_cons_self pr prs, h2⟩
      · exact Or.inr ⟨q, List.mem_cons_of_mem pr hq, hd⟩

/-- `popMin` returns an element of the queue, and the remainder is drawn
from the queue. -/
theorem popMin_mem : ∀ (l : List Entry) (e : Entry) (rest : List Entry),
    popMin l = some (e, rest) → e ∈ l ∧ ∀ x ∈ rest, x ∈ l := by
  intro l
  induction l with
  | nil => intro e rest h; cases h
  | cons a t ih =>
    intro e rest h
    rw [popMin] at h
    cases hm : popMin t with
    | none =>
      rw [hm] at h
      have h2 : some (a, ([] : List Entry)) = some (e, rest) := h
      have h3 := Option.some.inj h2
      have he : a = e := congrArg Prod.fst h3
      have hr : ([] : List Entry) = rest := congrArg Prod.snd h3
      rw [← he, ← hr]
      exact ⟨List.mem_cons_self a t, fun x hx => absurd hx (List.not_mem_nil x)⟩
    | some mr =>
      rw [hm] at h
      have h2 : (if entryLe a mr.1 then some (a, t)
          else some (mr.1, a :: mr.2)) = some (e, rest) := h
      by_cases hle : entryLe a mr.1
      · rw [if_pos hle] at h2
        have h3 := Option.some.inj h2
        have he : a = e := congrArg Prod.fst h3
        have hr : t = rest := congrArg Prod.snd h3
        rw [← he, ← hr]
        exact ⟨List.mem_cons_self a t, fun x hx => List.mem_cons_of_mem a hx⟩
      · rw [if_neg hle] at h2
        have h3 := Option.some.inj h2
        have he : mr.1 = e := congrArg Prod.fst h3
        have hr : a :: mr.2 = rest := congrArg Prod.snd h3
        rw [← he, ← hr]
        obtain ⟨hm1, hm2⟩ := ih mr.1 mr.2 (by rw [hm])
        refine ⟨List.mem_cons_of_mem a hm1, fun x hx => ?_⟩
        rcases List.mem_cons.mp hx with hx | hx
        · rw [hx]; exact List.mem_cons_self a t
        · exact List.mem_cons_of_mem a (hm2 x hx)

/-- Every adjacency entry comes from some row of the graph. -/
theorem adj_mem (g : Graph) (f : String) :
    ∀ pr ∈ Graph.adj g f, ∃ q ∈ g, pr ∈ q.2 := by
  intro pr hpr
  unfold Graph.adj at hpr
  cases hfind : g.find? (fun p => p.1 == f) with
  | none => rw [hfind] at hpr; cases hpr
  | some q =>
    rw [hfind] at hpr
    exact ⟨q, List.mem_of_find?_eq_some hfind, hpr⟩

/-- Relaxing one connection drawn from the current stop's adjacency keeps
every queued path backed by the graph. -/
theorem relaxConn_good (g : Graph) (mt : Nat) (cur : Entry) (next : String)
    (c : Conn) (st : List Entry × BestCosts)
    (hst : ∀ en ∈ st.1, GoodPath g en.path) (hcur : GoodPath g cur.path)
    (hc : ∃ pr ∈ Graph.adj g cur.stop, pr.1 = next ∧ c ∈ pr.2) :
    ∀ en ∈ (relaxConn mt cur next c st).1, GoodPath g en.path := by
  intro en hen
  unfold relaxConn at hen
  by_cases hb : mt < cur.transfers + (if c.is_transfer then 1 else 0)
  · rw [if_pos hb] at hen; exact hst en hen
  · rw [if_neg hb] at hen
    by_cases himp : improves st.2 (next, cur.transfers + (if c.is_transfer then 1 else 0))
        (cur.cost + (c.travel_time + c.transfer_penalty))
    · rw [if_pos himp] at hen
      rcases List.mem_append.mp hen with h | h
      · exact hst en h
      · rcases List.mem_singleton.mp h with rfl
        intro e he
        rcases List.mem_append.mp he with h2 | h2
        · exact hcur e h2
        · rcases List.mem_singleton.mp h2 with rfl
          obtain ⟨pr, hpr, hpr1, hcm⟩ := hc
          exact ⟨pr, hpr, hpr1, c, hcm, rfl, rfl, rfl⟩
    · rw [if_neg himp] at hen; exact hst en hen

/-- The inner connection loop preserves graph-backed queued paths. -/
theorem relaxConns_good (g : Graph) (mt : Nat) (cur : Entry) (next : String)
    (pr : String × List Conn) (hpr : pr ∈ Graph.adj g cur.stop)
    (hpr1 : pr.1 = next) :
    ∀ (cs : List Conn), (∀ c ∈ cs, c ∈ pr.2) →
      ∀ (st : List Entry × BestCosts),
        (∀ en ∈ st.1, GoodPath g en.path) → GoodPath g cur.path →
        ∀ en ∈ (cs.foldl (fun acc2 c => relaxConn mt cur next c acc2) st).1,
          GoodPath g en.path := by
  intro cs
  induction cs with
  | nil => intro _ st hst _ en hen; exact hst en hen
  | cons c rest ih =>
    intro hsub st hst hcur en hen
    refine ih (fun x hx => hsub x (List.mem_cons_of_mem c hx))
      (relaxConn mt cur next c st) ?_ hcur en hen
    exact relaxConn_good g mt cur next c st hst hcur
      ⟨pr, hpr, hpr1, hsub c (List.mem_cons_self c rest)⟩

/-- The neighbor loops preserve graph-backed queued paths. -/
theorem relaxAll_good (g : Graph) (mt : Nat) (cur : Entry) :
    ∀ (ns : List (String × List Conn)), (∀ pr ∈ ns, pr ∈ Graph.adj g cur.stop) →
      ∀ (st : List Entry × BestCosts),
        (∀ en ∈ st.1, GoodPath g en.path) → GoodPath g cur.path →
        ∀ en ∈ (relaxAll mt cur ns st).1, GoodPath g en.path := by
  intro ns
  induction ns with
  | nil => intro _ st hst _ en hen; exact hst en hen
  | cons pr rest ih =>
    intro hsub st hst hcur en hen
    rw [relaxAll, List.foldl_cons] at hen
    refine ih (fun x hx => hsub x (List.mem_cons_of_mem pr hx))
      (pr.2.foldl (fun acc2 c => relaxConn mt cur pr.1 c acc2) st) ?_ hcur en ?_
    · exact relaxConns_good g mt cur pr.1 pr
        (hsub pr (List.mem_cons_self pr rest)) rfl pr.2 (fun c hc => hc) st hst hcur
    · rw [relaxAll]; exact hen

/-- Any path the Dijkstra loop returns from a queue of graph-backed paths
is itself graph-backed. -/
theorem dijkstraLoop_good (g : Graph) (endStop : String) (mt : Nat) :
    ∀ (fuel : Nat) (pq : List Entry) (visited : List (String × Nat))
      (bc : BestCosts),
      (∀ en ∈ pq, GoodPath g en.path) →
      ∀ p, dijkstraLoop g endStop mt fuel pq visited bc = some p →
        GoodPath g p := by
  intro fuel
  induction fuel with
  | zero => intro pq visited bc _ p h; cases h
  | succ fuel ih =>
    intro pq visited bc hpq p h
    rw [dijkstraLoop] at h
    cases hpop : popMin pq with
    | none => rw [hpop] at h; cases h
    | some er =>
      rw [hpop] at h
      have h2 :
          (if List.contains visited (er.1.stop, er.1.transfers) then
            dijkstraLoop g endStop mt fuel er.2 visited bc
          else if er.1.stop = endStop then some er.1.path
          else if mt < er.1.transfers then
            dijkstraLoop g endStop mt fuel er.2
              ((er.1.stop, er.1.transfers) :: visited) bc
          else
            dijkstraLoop g endStop mt fuel
              (relaxAll mt er.1 (Graph.adj g er.1.stop) (er.2, bc)).1
              ((er.1.stop, er.1.transfers) :: visited)
              (relaxAll mt er.1 (Graph.adj g er.1.stop) (er.2, bc)).2) =
            some p := h
      obtain ⟨hmem, hrest⟩ := popMin_mem pq er.1 er.2 (by rw [hpop])
      by_cases hvis : List.contains visited (er.1.stop, er.1.transfers)
      · rw [if_pos hvis] at h2
        exact ih er.2 visited bc (fun en hen => hpq en (hrest en hen)) p h2
      · rw [if_neg hvis] at h2
        by_cases hend : er.1.stop = endStop
        · rw [if_pos hend] at h2
          cases h2
          exact hpq er.1 hmem
        · rw [if_neg hend] at h2
          by_cases htr : mt < er.1.transfers
          · rw [if_pos htr] at h2
            exact ih er.2 _ bc (fun en hen => hpq en (hrest en hen)) p h2
          · rw [if_neg htr] at h2
            refine ih _ _ _ ?_ p h2
            exact relaxAll_good g mt er.1 (Graph.adj g er.1.stop) (fun pr hpr => hpr)
              (er.2, bc) (fun en hen => hpq en (hrest en hen)) (hpq er.1 hmem)

/-- Any path `_dijkstra` returns is backed by the graph. -/
theorem dijkstra_good (g : Graph) (start endStop : String) (mt fuel : Nat)
    (p : List Edge) (h : dijkstra g start endStop mt fuel = some p) :
    GoodPath g p := by
  refine dijkstraLoop_good g endStop mt fuel _ [] [] ?_ p h
  intro en hen
  rcases List.mem_singleton.mp hen with rfl
  intro e he
  cases he

/-- Under invariant I3 the travel-time sum over all edges of a
graph-backed path equals the sum over its non-transfer edges. -/
theorem goodPath_sums (g : Graph) (hI3 : TransfersZero g) :
    ∀ (p : List Edge), GoodPath g p → nonTransferTravelSum p = pathTravelSum p := by
  intro p
  induction p with
  | nil => intro _; rfl
  | cons e rest ih =>
    intro hp
    have hrest := ih (fun x hx => hp x (List.mem_cons_of_mem e hx))
    have hbe := hp e (List.mem_cons_self e rest)
    by_cases ht : e.is_transfer
    · have hz : e.travel_time = 0 := by
        obtain ⟨pr, hpr, _, c, hcm, _, hct, hcf⟩ := hbe
        obtain ⟨q, hq, hprq⟩ := adj_mem g e.from_stop pr hpr
        have := hI3 q hq pr hprq c hcm (by rw [hcf]; exact ht)
        rw [← hct, this]
      simp only [nonTransferTravelSum, pathTravelSum, List.filter, ht,
        Bool.not_true, List.map_cons, List.sum_cons, hz, Nat.zero_add] at *
      simpa [nonTransferTravelSum, pathTravelSum] using hrest
    · have htf : e.is_transfer = false := by simpa using ht
      simp only [nonTransferTravelSum, pathTravelSum, List.filter, htf,
        Bool.not_false, List.map_cons, List.sum_cons] at *
      omega

/-- The adjacency of a cons cell: the head when its key matches, the
tail's adjacency otherwise. -/
theorem adj_cons (k : String) (dests : List (String × List Conn)) (rest : Graph)
    (f : String) :
    Graph.adj ((k, dests) :: rest) f = if k = f then dests else Graph.adj rest f := by
  by_cases h : k = f
  · rw [if_pos h]
    unfold Graph.adj
    rw [List.find?_cons_of_pos _ (by simp [h])]
  · rw [if_neg h]
    unfold Graph.adj
    rw [List.find?_cons_of_neg _ (by simp [h])]

/-- Appending into the inner dict adds exactly the pair `(t0, c0)`. -/
theorem mem_addDest (t0 : String) (c0 : Conn) :
    ∀ (dests : List (String × List Conn)) (t : String) (c : Conn),
      (∃ pr ∈ Graph.addDest t0 c0 dests, pr.1 = t ∧ c ∈ pr.2) ↔
        (∃ pr ∈ dests, pr.1 = t ∧ c ∈ pr.2) ∨ (t = t0 ∧ c = c0) := by
  intro dests
  induction dests with
  | nil =>
    intro t c
    constructor
    · rintro ⟨pr, hpr, h1, h2⟩
      have hp := List.mem_singleton.mp hpr
      rw [hp] at h1 h2
      exact Or.inr ⟨h1.symm, List.mem_singleton.mp h2⟩
    · rintro (⟨pr, hpr, _⟩ | ⟨ht, hc⟩)
      · exact absurd hpr (List.not_mem_nil pr)
      · exact ⟨(t0, [c0]), List.mem_singleton_self _, ht.symm,
          hc ▸ List.mem_singleton_self c⟩
  | cons hd rest ih =>
    intro t c
    obtain ⟨k2, cs⟩ := hd
    rw [Graph.addDest]
    by_cases hk : k2 = t0
    · rw [if_pos hk]
      subst hk
      simp only [List.mem_cons]
      constructor
      · rintro ⟨pr, hpr | hpr, h1, h2⟩
        · rw [hpr] at h1 h2
          simp only at h1 h2
          rcases List.mem_append.mp h2 with h2 | h2
          · exact Or.inl ⟨(k2, cs), Or.inl rfl, h1, h2⟩
          · exact Or.inr ⟨h1.symm ▸ rfl, List.mem_singleton.mp h2⟩
        · exact Or.inl ⟨pr, Or.inr hpr, h1, h2⟩
      · rintro (⟨pr, hpr | hpr, h1, h2⟩ | ⟨ht, hc⟩)
        · rw [hpr] at h1 h2
          exact ⟨(k2, cs ++ [c0]), Or.inl rfl, h1, List.mem_append.mpr (Or.inl h2)⟩
        · exact ⟨pr, Or.inr hpr, h1, h2⟩
        · exact ⟨(k2, cs ++ [c0]), Or.inl rfl, ht ▸ rfl,
            List.mem_append.mpr (Or.inr (hc ▸ List.mem_singleton_self c))⟩
    · rw [if_neg hk]
      simp only [List.mem_cons]
      constructor
      · rintro ⟨pr, hpr | hpr, h1, h2⟩
        · exact Or.inl ⟨pr, Or.inl hpr, h1, h2⟩
        · rcases (ih t c).mp ⟨pr, hpr, h1, h2⟩ with ⟨pr2, h3, h4, h5⟩ | h3
          · exact Or.inl ⟨pr2, Or.inr h3, h4, h5⟩
          · exact Or.inr h3
      · rintro (⟨pr, hpr | hpr, h1, h2⟩ | ⟨ht, hc⟩)
        · exact ⟨pr, Or.inl hpr, h1, h2⟩
        · rcases (ih t c).mpr (Or.inl ⟨pr, hpr, h1, h2⟩) with ⟨pr2, h3, h4, h5⟩
          exact ⟨pr2, Or.inr h3, h4, h5⟩
        · rcases (ih t c).mpr (Or.inr ⟨ht, hc⟩) with ⟨pr2, h3, h4, h5⟩
          exact ⟨pr2, Or.inr h3, h4, h5⟩

/-- The adjacency of `addConn g f0 t0 c0` at `f`: updated inner dict at
`f0`, unchanged elsewhere. -/
theorem adj_addConn (g : Graph) (f0 t0 : String) (c0 : Conn) :
    ∀ f, Graph.adj (Graph.addConn g f0 t0 c0) f =
      if f = f0 then Graph.addDest t0 c0 (Graph.adj g f0) else Graph.adj g f := by
  induction g with
  | nil =>
    intro f
    have h0 : Graph.addConn [] f0 t0 c0 = [(f0, [(t0, [c0])])] := rfl
    rw [h0, adj_cons]
    by_cases hf : f = f0
    · subst hf
      rw [if_pos rfl, if_pos rfl]
      rfl
    · rw [if_neg (fun h => hf h.symm), if_neg hf]
  | cons hd rest ih =>
    intro f
    obtain ⟨k, dests⟩ := hd
    rw [Graph.addConn]
    by_cases hk : k = f0
    · rw [if_pos hk]
      subst hk
      rw [adj_cons]
      by_cases hf : k = f
      · rw [if_pos hf, if_pos hf.symm, adj_cons, if_pos rfl]
      · rw [if_neg hf, if_neg (fun h => hf h.symm), adj_cons, if_neg hf]
    · rw [if_neg hk, adj_cons]
      by_cases hf : k = f
      · rw [if_pos hf, if_neg (fun h : f = f0 => hk (hf.trans h)), adj_cons,
          if_pos hf]
      · rw [if_neg hf, ih f]
        by_cases hff : f = f0
        · rw [if_pos hff, if_pos hff, adj_cons, if_neg hk]
        · rw [if_neg hff, if_neg hff, adj_cons, if_neg hf]

/-- `addConn` adds exactly the connection `c0` on `(f0, t0)`. -/
theorem hasConn_addConn (g : Graph) (f0 t0 : String) (c0 : Conn)
    (f t : String) (c : Conn) :
    HasConn (Graph.addConn g f0 t0 c0) f t c ↔
      HasConn g f t c ∨ (f = f0 ∧ t = t0 ∧ c = c0) := by
  unfold HasConn
  rw [adj_addConn]
  by_cases hf : f = f0
  · rw [if_pos hf]
    subst hf
    rw [mem_addDest]
    constructor
    · rintro (h | ⟨h1, h2⟩)
      · exact Or.inl h
      · exact Or.inr ⟨rfl, h1, h2⟩
    · rintro (h | ⟨_, h1, h2⟩)
      · exact Or.inl h
      · exact Or.inr ⟨h1, h2⟩
  · rw [if_neg hf]
    constructor
    · exact fun h => Or.inl h
    · rintro (h | ⟨h1, _, _⟩)
      · exact h
      · exact absurd h1 hf

/-- A graph key is a row whose first component matches. -/
theorem isKey_iff (g : Graph) (x : String) :
    Graph.isKey g x = true ↔ ∃ q ∈ g, q.1 = x := by
  unfold Graph.isKey
  rw [List.any_eq_true]
  constructor
  · rintro ⟨q, hq, hbeq⟩
    exact ⟨q, hq, beq_iff_eq.mp hbeq⟩
  · rintro ⟨q, hq, heq⟩
    exact ⟨q, hq, beq_iff_eq.mpr heq⟩

/-- The rows of `addConn`: every row key is an old key or the new `f0`. -/
theorem mem_addConn_key (g : Graph) (f0 t0 : String) (c0 : Conn) :
    ∀ q ∈ Graph.addConn g f0 t0 c0, q.1 ∈ g.map Prod.fst ∨ q.1 = f0 := by
  induction g with
  | nil =>
    intro q hq
    have h0 : Graph.addConn [] f0 t0 c0 = [(f0, [(t0, [c0])])] := rfl
    rw [h0] at hq
    rw [List.mem_singleton.mp hq]
    exact Or.inr rfl
  | cons hd rest ih =>
    intro q hq
    obtain ⟨k, dests⟩ := hd
    rw [Graph.addConn] at hq
    by_cases hk : k = f0
    · rw [if_pos hk] at hq
      rcases List.mem_cons.mp hq with h | h
      · rw [h]; exact Or.inl (List.mem_cons_self k _)
      · exact Or.inl (List.mem_cons_of_mem k (List.mem_map_of_mem Prod.fst h))
    · rw [if_neg hk] at hq
      rcases List.mem_cons.mp hq with h | h
      · rw [h]; exact Or.inl (List.mem_cons_self k _)
      · rcases ih q h with h2 | h2
        · exact Or.inl (List.mem_cons_of_mem k h2)
        · exact Or.inr h2

/-- Every old key survives `addConn`, and `f0` becomes a key. -/
theorem key_mem_addConn (g : Graph) (f0 t0 : String) (c0 : Conn) :
    (∀ q ∈ g, ∃ q2 ∈ Graph.addConn g f0 t0 c0, q2.1 = q.1) ∧
    (∃ q2 ∈ Graph.addConn g f0 t0 c0, q2.1 = f0) := by
  induction g with
  | nil =>
    refine ⟨fun q hq => absurd hq (List.not_mem_nil q), ?_⟩
    have h0 : Graph.addConn [] f0 t0 c0 = [(f0, [(t0, [c0])])] := rfl
    rw [h0]
    exact ⟨(f0, [(t0, [c0])]), List.mem_singleton_self _, rfl⟩
  | cons hd rest ih =>
    obtain ⟨k, dests⟩ := hd
    rw [Graph.addConn]
    by_cases hk : k = f0
    · rw [if_pos hk]
      constructor
      · intro q hq
        rcases List.mem_cons.mp hq with h | h
        · exact ⟨(k, Graph.addDest t0 c0 dests), List.mem_cons_self _ _, by rw [h]⟩
        · exact ⟨q, List.mem_cons_of_mem _ h, rfl⟩
      · exact ⟨(k, Graph.addDest t0 c0 dests), List.mem_cons_self _ _, hk⟩
    · rw [if_neg hk]
      constructor
      · intro q hq
        rcases List.mem_cons.mp hq with h | h
        · exact ⟨(k, dests), List.mem_cons_self _ _, by rw [h]⟩
        · obtain ⟨q2, hq2, hq2e⟩ := ih.1 q h
          exact ⟨q2, List.mem_cons_of_mem _ hq2, hq2e⟩
      · obtain ⟨q2, hq2, hq2e⟩ := ih.2
        exact ⟨q2, List.mem_cons_of_mem _ hq2, hq2e⟩

/-- `addConn` adds exactly the outer key `f0`. -/
theorem isKey_addConn (g : Graph) (f0 t0 : String) (c0 : Conn) (x : String) :
    Graph.isKey (Graph.addConn g f0 t0 c0) x = true ↔
      (Graph.isKey g x = true ∨ x = f0) := by
  rw [isKey_iff, isKey_iff]
  constructor
  · rintro ⟨q, hq, hqx⟩
    rcases mem_addConn_key g f0 t0 c0 q hq with h | h
    · rcases List.mem_map.mp h with ⟨q2, hq2, hq2x⟩
      exact Or.inl ⟨q2, hq2, hq2x.trans hqx⟩
    · exact Or.inr (hqx ▸ h)
  · rintro (⟨q, hq, hqx⟩ | hx)
    · obtain ⟨q2, hq2, hq2e⟩ := (key_mem_addConn g f0 t0 c0).1 q hq
      exact ⟨q2, hq2, hq2e.trans hqx⟩
    · obtain ⟨q2, hq2, hq2e⟩ := (key_mem_addConn g f0 t0 c0).2
      exact ⟨q2, hq2, hq2e.trans hx.symm⟩

/-- A list holding two distinct members has length at least two. -/
theorem two_le_length_of_mem_ne {α : Type} {a b : α} :
    ∀ {l : List α}, a ∈ l → b ∈ l → a ≠ b → 2 ≤ l.length := by
  intro l
  induction l with
  | nil => intro ha _ _; exact absurd ha (List.not_mem_nil a)
  | cons x rest ih =>
    intro ha hb hne
    rcases List.mem_cons.mp ha with ha | ha
    · rcases List.mem_cons.mp hb with hb | hb
      · exact absurd (ha.trans hb.symm) hne
      · have : rest ≠ [] := List.ne_nil_of_mem hb
        have : 1 ≤ rest.length := List.length_pos.mpr this
        simp only [List.length_cons]
        omega
    · have : rest ≠ [] := List.ne_nil_of_mem ha
      have : 1 ≤ rest.length := List.length_pos.mpr this
      simp only [List.length_cons]
      omega

/-- The inner pair loop for a fixed source platform `p`: it adds exactly
the `PLATFORM_TRANSFER` connections `(p, q)` for `q` in the list, `q ≠ p`,
and (given `p` is a key) leaves the key set unchanged. -/
theorem innerQ_spec (p : String) :
    ∀ (qs : List String) (acc : Graph), Graph.isKey acc p = true →
      (∀ f t c, HasConn (qs.foldl (fun acc3 q =>
          if p == q then acc3
          else Graph.addConn acc3 p q platformTransferConn) acc) f t c ↔
        HasConn acc f t c ∨
          (f = p ∧ t ∈ qs ∧ p ≠ t ∧ c = platformTransferConn)) ∧
      (∀ x, Graph.isKey (qs.foldl (fun acc3 q =>
          if p == q then acc3
          else Graph.addConn acc3 p q platformTransferConn) acc) x = true ↔
        Graph.isKey acc x = true) := by
  intro qs
  induction qs with
  | nil =>
    intro acc _
    constructor
    · intro f t c
      simp
    · intro x
      simp
  | cons q rest ih =>
    intro acc hp
    simp only [List.foldl_cons]
    by_cases hpq : p = q
    · have hb : (p == q) = true := beq_iff_eq.mpr hpq
      rw [if_pos hb] at *
      obtain ⟨ihc, ihk⟩ := ih acc hp
      constructor
      · intro f t c
        rw [ihc f t c]
        constructor
        · rintro (h | ⟨h1, h2, h3, h4⟩)
          · exact Or.inl h
          · exact Or.inr ⟨h1, List.mem_cons_of_mem q h2, h3, h4⟩
        · rintro (h | ⟨h1, h2, h3, h4⟩)
          · exact Or.inl h
          · rcases List.mem_cons.mp h2 with h2 | h2
            · exact absurd (hpq.trans h2.symm) h3
            · exact Or.inr ⟨h1, h2, h3, h4⟩
      · exact ihk
    · have hb : (p == q) = false := beq_eq_false_iff_ne.mpr hpq
      rw [if_neg (by rw [hb]; exact Bool.false_ne_true)] at *
      have hp2 : Graph.isKey (Graph.addConn acc p q platformTransferConn) p = true :=
        (isKey_addConn acc p q platformTransferConn p).mpr (Or.inl hp)
      obtain ⟨ihc, ihk⟩ := ih (Graph.addConn acc p q platformTransferConn) hp2
      constructor
      · intro f t c
        rw [ihc f t c, hasConn_addConn]
        constructor
        · rintro ((h | ⟨h1, h2, h3⟩) | ⟨h1, h2, h3, h4⟩)
          · exact Or.inl h
          · exact Or.inr ⟨h1, h2 ▸ List.mem_cons_self q rest, h2 ▸ hpq, h3⟩
          · exact Or.inr ⟨h1, List.mem_cons_of_mem q h2, h3, h4⟩
        · rintro (h | ⟨h1, h2, h3, h4⟩)
          · exact Or.inl (Or.inl h)
          · rcases List.mem_cons.mp h2 with h2 | h2
            · exact Or.inl (Or.inr ⟨h1, h2, h4⟩)
            · exact Or.inr ⟨h1, h2, h3, h4⟩
      · intro x
        rw [ihk x, isKey_addConn]
        constructor
        · rintro (h | h)
          · exact h
          · exact h ▸ hp
        · exact fun h => Or.inl h

/-- The outer pair loop: adds exactly the `PLATFORM_TRANSFER` connections
between distinct platforms of the two lists, keys unchanged. -/
theorem innerP_spec (platforms : List String) :
    ∀ (ps : List String) (acc : Graph),
      (∀ r ∈ platforms, Graph.isKey acc r = true) →
      (∀ r ∈ ps, r ∈ platforms) →
      (∀ f t c, HasConn (ps.foldl (fun acc2 p =>
          platforms.foldl (fun acc3 q =>
            if p == q then acc3
            else Graph.addConn acc3 p q platformTransferConn) acc2) acc) f t c ↔
        HasConn acc f t c ∨
          (f ∈ ps ∧ t ∈ platforms ∧ f ≠ t ∧ c = platformTransferConn)) ∧
      (∀ x, Graph.isKey (ps.foldl (fun acc2 p =>
          platforms.foldl (fun acc3 q =>
            if p == q then acc3
            else Graph.addConn acc3 p q platformTransferConn) acc2) acc) x = true ↔
        Graph.isKey acc x = true) := by
  intro ps
  induction ps with
  | nil =>
    intro acc _ _
    constructor
    · intro f t c
      simp
    · intro x
      simp
  | cons p rest ih =>
    intro acc hkeys hsub
    simp only [List.foldl_cons]
    have hpk : Graph.isKey acc p = true :=
      hkeys p (hsub p (List.mem_cons_self p rest))
    obtain ⟨qc, qk⟩ := innerQ_spec p platforms acc hpk
    have hkeys2 : ∀ r ∈ platforms, Graph.isKey
        (platforms.foldl (fun acc3 q =>
          if p == q then acc3
          else Graph.addConn acc3 p q platformTransferConn) acc) r = true :=
      fun r hr => (qk r).mpr (hkeys r hr)
    obtain ⟨ihc, ihk⟩ := ih _ hkeys2 (fun r hr => hsub r (List.mem_cons_of_mem p hr))
    constructor
    · intro f t c
      rw [ihc f t c, qc f t c]
      constructor
      · rintro ((h | ⟨h1, h2, h3, h4⟩) | ⟨h1, h2, h3, h4⟩)
        · exact Or.inl h
        · exact Or.inr ⟨h1 ▸ List.mem_cons_self p rest, h2,
            fun he => h3 (h1 ▸ he ▸ rfl), h4⟩
        · exact Or.inr ⟨List.mem_cons_of_mem p h1, h2, h3, h4⟩
      · rintro (h | ⟨h1, h2, h3, h4⟩)
        · exact Or.inl (Or.inl h)
        · rcases List.mem_cons.mp h1 with h1 | h1
          · exact Or.inl (Or.inr ⟨h1, h2, fun he => h3 (h1 ▸ he ▸ rfl), h4⟩)
          · exact Or.inr ⟨h1, h2, h3, h4⟩
    · intro x
      rw [ihk x, qk x]

/-- One base-station step of the intra-station pass: it adds exactly the
`PLATFORM_TRANSFER` connections between distinct directional platforms of
`base` that are keys, and leaves the key set unchanged. -/
theorem intraForBase_spec (acc : Graph) (base : String) :
    (∀ f t c, HasConn (intraForBase acc base) f t c ↔
      HasConn acc f t c ∨
        (∃ d1 ∈ ["N", "S", "E", "W"], ∃ d2 ∈ ["N", "S", "E", "W"],
          f = base ++ d1 ∧ t = base ++ d2 ∧ f ≠ t ∧ c = platformTransferConn ∧
          Graph.isKey acc f = true ∧ Graph.isKey acc t = true)) ∧
    (∀ x, Graph.isKey (intraForBase acc base) x = true ↔
      Graph.isKey acc x = true) := by
  unfold intraForBase
  have hmem : ∀ r, r ∈ (["N", "S", "E", "W"].map
      (fun d => base ++ d)).filter (Graph.isKey acc) ↔
      (∃ d ∈ ["N", "S", "E", "W"], r = base ++ d) ∧ Graph.isKey acc r = true := by
    intro r
    rw [List.mem_filter]
    constructor
    · rintro ⟨h1, h2⟩
      rcases List.mem_map.mp h1 with ⟨d, hd, hdr⟩
      exact ⟨⟨d, hd, hdr.symm⟩, h2⟩
    · rintro ⟨⟨d, hd, hdr⟩, h2⟩
      exact ⟨List.mem_map.mpr ⟨d, hd, hdr.symm⟩, h2⟩
  by_cases hlen : ((["N", "S", "E", "W"].map
      (fun d => base ++ d)).filter (Graph.isKey acc)).length ≤ 1
  · rw [if_pos hlen]
    constructor
    · intro f t c
      constructor
      · exact fun h => Or.inl h
      · rintro (h | ⟨d1, hd1, d2, hd2, hf, ht, hne, hc, hkf, hkt⟩)
        · exact h
        · exfalso
          have hfm := (hmem f).mpr ⟨⟨d1, hd1, hf⟩, hkf⟩
          have htm := (hmem t).mpr ⟨⟨d2, hd2, ht⟩, hkt⟩
          have := two_le_length_of_mem_ne hfm htm hne
          omega
    · intro x
      rfl
  · rw [if_neg hlen]
    have hkeys : ∀ r ∈ (["N", "S", "E", "W"].map
        (fun d => base ++ d)).filter (Graph.isKey acc),
        Graph.isKey acc r = true :=
      fun r hr => ((hmem r).mp hr).2
    obtain ⟨pc, pk⟩ := innerP_spec _ _ acc hkeys (fun r hr => hr)
    constructor
    · intro f t c
      rw [pc f t c]
      constructor
      · rintro (h | ⟨h1, h2, h3, h4⟩)
        · exact Or.inl h
        · obtain ⟨⟨d1, hd1, hf⟩, hkf⟩ := (hmem f).mp h1
          obtain ⟨⟨d2, hd2, ht⟩, hkt⟩ := (hmem t).mp h2
          exact Or.inr ⟨d1, hd1, d2, hd2, hf, ht, h3, h4, hkf, hkt⟩
      · rintro (h | ⟨d1, hd1, d2, hd2, hf, ht, hne, hc, hkf, hkt⟩)
        · exact Or.inl h
        · exact Or.inr ⟨(hmem f).mpr ⟨⟨d1, hd1, hf⟩, hkf⟩,
            (hmem t).mpr ⟨⟨d2, hd2, ht⟩, hkt⟩, hne, hc⟩
    · exact pk

/-- The whole intra-station pass, over any base list. -/
theorem intraFold_spec :
    ∀ (bases : List String) (acc : Graph),
      (∀ f t c, HasConn (bases.foldl intraForBase acc) f t c ↔
        HasConn acc f t c ∨
          (∃ b ∈ bases, ∃ d1 ∈ ["N", "S", "E", "W"], ∃ d2 ∈ ["N", "S", "E", "W"],
            f = b ++ d1 ∧ t = b ++ d2 ∧ f ≠ t ∧ c = platformTransferConn ∧
            Graph.isKey acc f = true ∧ Graph.isKey acc t = true)) ∧
      (∀ x, Graph.isKey (bases.foldl intraForBase acc) x = true ↔
        Graph.isKey acc x = true) := by
  intro bases
  induction bases with
  | nil =>
    intro acc
    constructor
    · intro f t c
      simp
    · intro x
      simp
  | cons b rest ih =>
    intro acc
    simp only [List.foldl_cons]
    obtain ⟨bc, bk⟩ := intraForBase_spec acc b
    obtain ⟨ihc, ihk⟩ := ih (intraForBase acc b)
    constructor
    · intro f t c
      rw [ihc f t c, bc f t c]
      constructor
      · rintro ((h | ⟨d1, hd1, d2, hd2, hf, ht, hne, hc, hkf, hkt⟩) |
          ⟨b2, hb2, d1, hd1, d2, hd2, hf, ht, hne, hc, hkf, hkt⟩)
        · exact Or.inl h
        · exact Or.inr ⟨b, List.mem_cons_self b rest, d1, hd1, d2, hd2,
            hf, ht, hne, hc, hkf, hkt⟩
        · exact Or.inr ⟨b2, List.mem_cons_of_mem b hb2, d1, hd1, d2, hd2,
            hf, ht, hne, hc, (bk f).mp hkf, (bk t).mp hkt⟩
      · rintro (h | ⟨b2, hb2, d1, hd1, d2, hd2, hf, ht, hne, hc, hkf, hkt⟩)
        · exact Or.inl (Or.inl h)
        · rcases List.mem_cons.mp hb2 with hb2 | hb2
          · exact Or.inl (Or.inr ⟨d1, hd1, d2, hd2, hb2 ▸ hf, hb2 ▸ ht,
              hne, hc, hkf, hkt⟩)
          · exact Or.inr ⟨b2, hb2, d1, hd1, d2, hd2, hf, ht, hne, hc,
              (bk f).mpr hkf, (bk t).mpr hkt⟩
    · intro x
      rw [ihk x, bk x]

/-- Looking up after one dict-append: the appended key gains the value at
the end, other keys are untouched. -/
theorem lookupList_groupInsert {κ α : Type} [DecidableEq κ] :
    ∀ (m : List (κ × List α)) (k0 : κ) (a : α) (k : κ),
      lookupList (groupInsert m k0 a) k =
        if k = k0 then lookupList m k ++ [a] else lookupList m k := by
  intro m
  induction m with
  | nil =>
    intro k0 a k
    by_cases hk : k = k0
    · subst hk
      simp [groupInsert, lookupList]
    · simp [groupInsert, lookupList, hk]
  | cons hd rest ih =>
    intro k0 a k
    obtain ⟨k1, l1⟩ := hd
    rw [groupInsert]
    by_cases h01 : k0 = k1
    · rw [if_pos h01]
      subst h01
      by_cases hk : k = k0
      · subst hk
        simp [lookupList]
      · simp [lookupList, hk]
    · rw [if_neg h01]
      by_cases hk1 : k = k1
      · subst hk1
        have hk0 : ¬ k = k0 := fun h => h01 h.symm
        simp [lookupList, hk0]
      · simp only [lookupList, if_neg hk1]
        exact ih k0 a k

/-- Folding a pair list into a dict-of-lists appends, per key, exactly the
values carried by that key, in order. -/
theorem lookupList_groupFold {κ α : Type} [DecidableEq κ] :
    ∀ (l : List (κ × α)) (m : List (κ × List α)) (k : κ),
      lookupList (l.foldl (fun m2 p => groupInsert m2 p.1 p.2) m) k =
        lookupList m k ++ l.filterMap (fun p => if p.1 = k then some p.2 else none) := by
  intro l
  induction l with
  | nil =>
    intro m k
    simp
  | cons p rest ih =>
    intro m k
    rw [List.foldl_cons, ih, lookupList_groupInsert]
    by_cases hk : k = p.1
    · rw [if_pos hk]
      have hp : p.1 = k := hk.symm
      simp [List.filterMap_cons, hp]
    · rw [if_neg hk]
      have hp : ¬ p.1 = k := fun h => hk h.symm
      simp [List.filterMap_cons, hp]

/-- Lookup over the whole grouping. -/
theorem lookupList_groupAll {κ α : Type} [DecidableEq κ] (l : List (κ × α)) (k : κ) :
    lookupList (groupAll l) k =
      l.filterMap (fun p => if p.1 = k then some p.2 else none) := by
  unfold groupAll
  rw [lookupList_groupFold]
  rfl

/-- One dict-append keeps keys nodup and entries non-empty. -/
theorem groupInsert_inv {κ α : Type} [DecidableEq κ] :
    ∀ (m : List (κ × List α)) (k0 : κ) (a : α),
      (m.map Prod.fst).Nodup → (∀ e ∈ m, e.2 ≠ []) →
      ((groupInsert m k0 a).map Prod.fst).Nodup ∧
        (∀ e ∈ groupInsert m k0 a, e.2 ≠ []) ∧
        ((groupInsert m k0 a).map Prod.fst = m.map Prod.fst ∨
          (groupInsert m k0 a).map Prod.fst = m.map Prod.fst ++ [k0]) := by
  intro m
  induction m with
  | nil =>
    intro k0 a _ _
    refine ⟨List.nodup_singleton k0, ?_, Or.inr rfl⟩
    intro e he
    rw [List.mem_singleton.mp he]
    simp
  | cons hd rest ih =>
    intro k0 a hnd hne
    obtain ⟨k1, l1⟩ := hd
    rw [List.map_cons] at hnd
    have hnd1 := List.nodup_cons.mp hnd
    rw [groupInsert]
    by_cases h01 : k0 = k1
    · rw [if_pos h01]
      refine ⟨by rw [List.map_cons]; exact hnd, ?_, Or.inl rfl⟩
      intro e he
      rcases List.mem_cons.mp he with he | he
      · rw [he]; simp
      · exact hne e (List.mem_cons_of_mem _ he)
    · rw [if_neg h01]
      obtain ⟨ihnd, ihne, ihkeys⟩ := ih k0 a hnd1.2
        (fun e he => hne e (List.mem_cons_of_mem _ he))
      refine ⟨?_, ?_, ?_⟩
      · rw [List.map_cons]
        refine List.nodup_cons.mpr ⟨?_, ihnd⟩
        intro hmem
        rcases ihkeys with hk | hk
        · rw [hk] at hmem
          exact hnd1.1 hmem
        · rw [hk] at hmem
          rcases List.mem_append.mp hmem with h | h
          · exact hnd1.1 h
          · exact h01 ((List.mem_singleton.mp h).symm ▸ rfl)
      · intro e he
        rcases List.mem_cons.mp he with he | he
        · rw [he]
          exact hne (k1, l1) (List.mem_cons_self _ _)
        · exact ihne e he
      · rcases ihkeys with hk | hk
        · exact Or.inl (by rw [List.map_cons, List.map_cons, hk])
        · exact Or.inr (by rw [List.map_cons, List.map_cons, hk]; rfl)

/-- The grouped dict has nodup keys and non-empty entries. -/
theorem groupAll_inv {κ α : Type} [DecidableEq κ] (l : List (κ × α)) :
    ((groupAll l).map Prod.fst).Nodup ∧ ∀ e ∈ groupAll l, e.2 ≠ [] := by
  unfold groupAll
  suffices h : ∀ (m : List (κ × List α)), (m.map Prod.fst).Nodup →
      (∀ e ∈ m, e.2 ≠ []) →
      ((l.foldl (fun m2 p => groupInsert m2 p.1 p.2) m).map Prod.fst).Nodup ∧
        ∀ e ∈ l.foldl (fun m2 p => groupInsert m2 p.1 p.2) m, e.2 ≠ [] by
    exact h [] List.nodup_nil (fun e he => absurd he (List.not_mem_nil e))
  induction l with
  | nil => intro m h1 h2; exact ⟨h1, h2⟩
  | cons p rest ih =>
    intro m h1 h2
    rw [List.foldl_cons]
    obtain ⟨g1, g2, _⟩ := groupInsert_inv m p.1 p.2 h1 h2
    exact ih (groupInsert m p.1 p.2) g1 g2

/-- In a dict with nodup keys and non-empty entries, membership is lookup. -/
theorem mem_iff_lookup {κ α : Type} [DecidableEq κ] :
    ∀ (m : List (κ × List α)), (m.map Prod.fst).Nodup → (∀ e ∈ m, e.2 ≠ []) →
      ∀ (k : κ) (ws : List α), (k, ws) ∈ m ↔ (lookupList m k = ws ∧ ws ≠ []) := by
  intro m
  induction m with
  | nil =>
    intro _ _ k ws
    constructor
    · intro h; exact absurd h (List.not_mem_nil _)
    · rintro ⟨h1, h2⟩
      exact absurd h1.symm h2
  | cons hd rest ih =>
    intro hnd hne k ws
    obtain ⟨k1, l1⟩ := hd
    rw [List.map_cons] at hnd
    have hnd1 := List.nodup_cons.mp hnd
    constructor
    · intro h
      rcases List.mem_cons.mp h with hh | hh
      · have hk : k = k1 := congrArg Prod.fst hh
        have hl : ws = l1 := congrArg Prod.snd hh
        have hnel1 : l1 ≠ [] := hne (k1, l1) (List.mem_cons_self _ _)
        rw [lookupList, if_pos hk, hl]
        exact ⟨rfl, hnel1⟩
      · have hk : ¬ k = k1 := fun hkk =>
          hnd1.1 (List.mem_map.mpr ⟨(k, ws), hh, hkk⟩)
        rw [lookupList, if_neg hk]
        exact (ih hnd1.2 (fun e he => hne e (List.mem_cons_of_mem _ he)) k ws).mp hh
    · rintro ⟨h1, h2⟩
      rw [lookupList] at h1
      by_cases hk : k = k1
      · rw [if_pos hk] at h1
        subst hk
        rw [← h1]
        exact List.mem_cons_self _ _
      · rw [if_neg hk] at h1
        exact List.mem_cons_of_mem _
          ((ih hnd1.2 (fun e he => hne e (List.mem_cons_of_mem _ he)) k ws).mpr
            ⟨h1, h2⟩)

/-- The connection fold of the consecutive-stop pass adds exactly one
averaged connection per grouped key. -/
theorem hasConn_consecFold
    (groups : List ((String × String × String) × List Nat)) :
    ∀ (g0 : Graph) (f t : String) (c : Conn),
      HasConn (groups.foldl
        (fun acc kv =>
          Graph.addConn acc kv.1.1 kv.1.2.1
            { route_id := kv.1.2.2, travel_time := kv.2.sum / kv.2.length,
              is_transfer := false, transfer_penalty := 0 }) g0) f t c ↔
      HasConn g0 f t c ∨
        ∃ kv ∈ groups, kv.1.1 = f ∧ kv.1.2.1 = t ∧
          c = { route_id := kv.1.2.2, travel_time := kv.2.sum / kv.2.length,
                is_transfer := false, transfer_penalty := 0 } := by
  induction groups with
  | nil =>
    intro g0 f t c
    simp
  | cons kv rest ih =>
    intro g0 f t c
    rw [List.foldl_cons, ih, hasConn_addConn]
    constructor
    · rintro ((h | ⟨h1, h2, h3⟩) | ⟨kv2, hkv2, h1, h2, h3⟩)
      · exact Or.inl h
      · exact Or.inr ⟨kv, List.mem_cons_self kv rest, h1.symm, h2.symm, h3⟩
      · exact Or.inr ⟨kv2, List.mem_cons_of_mem kv hkv2, h1, h2, h3⟩
    · rintro (h | ⟨kv2, hkv2, h1, h2, h3⟩)
      · exact Or.inl (Or.inl h)
      · rcases List.mem_cons.mp hkv2 with hkv2 | hkv2
        · exact Or.inl (Or.inr ⟨h1.symm ▸ hkv2 ▸ rfl, h2.symm ▸ hkv2 ▸ rfl,
            hkv2 ▸ h3⟩)
        · exact Or.inr ⟨kv2, hkv2, h1, h2, h3⟩

/-! ### Claim theorems -/

/-- C1: the leg `transfer` flag is computed from the index of the edge in
the Dijkstra path, not from the position in the returned leg list. On
`gC1` the shortest path for the query A to B starts with a platform
transfer edge that is dropped, so the single returned leg carries
`transfer = true` and the reported `transfers` equals the number of legs
instead of one less: the code contradicts its own comment that the
first leg is never a transfer, and the spec's P1. -/
theorem C1_first_leg_flagged_as_transfer :
    findBestRoute gC1 emptyCache "A" "B" 3 30 =
      some { legs := [legC1], transfers := 1, total_eta_s := 600, alerts := [] } ∧
    legC1.transfer = true ∧
    countTransfers [legC1] ≠ [legC1].length - 1 := by
  refine ⟨rfl, rfl, by decide⟩

/-- C6: the graph compiler is not idempotent as implemented: the module
level builder keeps its `self.graph` between runs, so a second
`build_graph` against the identical store appends every connection a
second time and commits a doubled row list (which moreover violates the
`(from, to, route)` primary key of `station_graph`). -/
theorem C6_second_run_doubles_edges :
    (buildGraph storeC6 []).2 = [edgeC6] ∧
    (buildGraph storeC6 (buildGraph storeC6 []).1).2 = [edgeC6, edgeC6] ∧
    [edgeC6, edgeC6] ≠ [edgeC6] := by
  refine ⟨rfl, rfl, by decide⟩

/-- C9, counterexample: an equal-endpoint query whose id expands to no
graph node returns `None` (origin-not-found), not an empty itinerary —
the expansion checks run before the equality short-circuit. -/
theorem C9_counterexample :
    findBestRoute gC1 emptyCache "X" "X" 3 30 = none ∧
    findBestRoute gC1 emptyCache "X" "X" 3 30 ≠
      some { legs := [], transfers := 0, total_eta_s := 0, alerts := [] } := by
  refine ⟨rfl, by decide⟩

/-- C9, amended: when the two input ids are equal and expand to at least
one graph node, the router returns the empty itinerary with zero totals. -/
theorem C9_amended_equal_inputs (g : Graph)
    (cache : String → String → Option (List Arrival)) (s : String)
    (maxTransfers fuel : Nat) (h : directionalStopIds g s ≠ []) :
    findBestRoute g cache s s maxTransfers fuel =
      some { legs := [], transfers := 0, total_eta_s := 0, alerts := [] } := by
  unfold findBestRoute
  simp [h]

/-- C9, witness: the amended statement at the concrete graph `gC1`. -/
theorem C9_amended_equal_inputs_witness :
    findBestRoute gC1 emptyCache "A" "A" 3 30 =
      some { legs := [], transfers := 0, total_eta_s := 0, alerts := [] } :=
  C9_amended_equal_inputs gC1 emptyCache "A" 3 30 (by decide)

/-- C7, counterexample: a stop-time update with stop id `123E` and an
in-window arrival is dropped by the code (only N and S suffixes are
recognized), although the claim's direction rule accepts E. -/
theorem C7_counterexample :
    processTripUpdates feedC7 900 = [] ∧
    specDirection "123E" = some "E" ∧
    (0 : Int) ≤ 1000 - 900 ∧ (1000 - 900 : Int) ≤ 3600 := by
  refine ⟨rfl, rfl, by decide, by decide⟩

/-- C5, counterexample: on `storeC5` no consecutive-stop edge exists at
all, yet the compiler emits the intra-station platform transfer
`AN → AS`, because the declared-transfer expansion already made the four
A-platforms sources of the in-progress graph. -/
theorem C5_counterexample :
    ptEdgeC5 ∈ (buildGraph storeC5 []).2 ∧
    buildConsecutiveConnections storeC5.stop_times storeC5.trips [] = [] := by
  refine ⟨by decide, rfl⟩

/-- C3, counterexample: the outer search keeps the pair (AN, BN), whose
inner path has the smaller travel-time sum (100 versus 110) but the
larger cumulative edge cost (400 versus 110): the chosen path's edge
cost is not minimal over the tried pairs. -/
theorem C3_counterexample :
    directionalStopIds gC3 "A" = ["AN", "AS"] ∧
    directionalStopIds gC3 "B" = ["BN"] ∧
    selectBestPath gC3 (directionalStopIds gC3 "A") (directionalStopIds gC3 "B") 3 30 =
      some pathC3chosen ∧
    dijkstra gC3 "AS" "BN" 3 30 = some pathC3other ∧
    pathEdgeCost gC3 pathC3chosen = 400 ∧
    pathEdgeCost gC3 pathC3other = 110 ∧
    (110 : Nat) < 400 := by
  refine ⟨rfl, rfl, rfl, rfl, rfl, rfl, by decide⟩

/-- C2, counterexample: the router queries the cache with the leg's full
directional stop id (`AN`), not its base id, so a prediction stored
under the base id `A` is never found and the leg boards at the scheduled
300 s although the claim prescribes the live 50 s. -/
theorem C2_counterexample :
    pathToLegs cacheC2 pathC2 = some [legC2] ∧
    legC2.board_in_s = 300 ∧
    specFirstLegBoard cacheC2 "AN" "R" 300 = 50 ∧
    legC2.board_in_s ≠ specFirstLegBoard cacheC2 "AN" "R" 300 := by
  refine ⟨rfl, rfl, rfl, by decide⟩

/-- C8, counterexample: an adjacent stop-time pair whose departure time
is missing produces no candidate at all — the SQL `WHERE` clause filters
it out — although the claim prescribes a 120 s candidate; the compiled
graph for `stopTimesC8` is empty. -/
theorem C8_counterexample :
    specPairWeight none (some "10:05:00") = 120 ∧
    buildConsecutiveConnections stopTimesC8 tripsC8 [] = [] ∧
    Graph.connList (buildConsecutiveConnections stopTimesC8 tripsC8 []) "X" "Y" = [] := by
  refine ⟨rfl, rfl, rfl⟩

/-- C5, amended: after the intra-station pass, a `PLATFORM_TRANSFER`
connection exists on `(f, t)` iff it was already present, or `f` and `t`
are distinct directional platforms of some stop id of the stops table
that are both sources (outer keys) of the in-progress graph — which, at
that point, includes the sources created by the declared-transfer
expansion, not only consecutive-stop origins. -/
theorem C5_amended_intra_station (stops : List String) (g : Graph)
    (f t : String) :
    HasConn (buildIntraStationTransfers stops g) f t platformTransferConn ↔
      HasConn g f t platformTransferConn ∨
      ∃ b ∈ stops, ∃ d1 ∈ ["N", "S", "E", "W"], ∃ d2 ∈ ["N", "S", "E", "W"],
        f = b ++ d1 ∧ t = b ++ d2 ∧ f ≠ t ∧
        Graph.isKey g f = true ∧ Graph.isKey g t = true := by
  unfold buildIntraStationTransfers
  obtain ⟨ic, _⟩ := intraFold_spec stops.dedup g
  rw [ic f t platformTransferConn]
  constructor
  · rintro (h | ⟨b, hb, d1, hd1, d2, hd2, hf, ht, hne, _, hkf, hkt⟩)
    · exact Or.inl h
    · exact Or.inr ⟨b, List.mem_dedup.mp hb, d1, hd1, d2, hd2,
        hf, ht, hne, hkf, hkt⟩
  · rintro (h | ⟨b, hb, d1, hd1, d2, hd2, hf, ht, hne, hkf, hkt⟩)
    · exact Or.inl h
    · exact Or.inr ⟨b, List.mem_dedup.mpr hb, d1, hd1, d2, hd2,
        hf, ht, hne, rfl, hkf, hkt⟩

/-- C5, witness: on `gC1` (where `AN` and `AS` are sources) the pass for
stop id A emits the platform transfer `AN → AS`. -/
theorem C5_amended_intra_station_witness :
    HasConn (buildIntraStationTransfers ["A"] gC1) "AN" "AS"
      platformTransferConn :=
  (C5_amended_intra_station ["A"] gC1 "AN" "AS").mpr
    (Or.inr ⟨"A", by decide, "N", by decide, "S", by decide, by decide,
      by decide, by decide, by decide, by decide⟩)

/-- C3, amended: the outer search is optimal over its expansion set with
respect to the travel-time sum (penalties excluded), not the cumulative
edge cost: the chosen path is the Dijkstra result of some tried pair,
and its travel-time sum is at most that of every tried pair's non-empty
result. -/
theorem C3_amended_outer_min (g : Graph) (origin destination : String)
    (mt fuel : Nat) (b : List Edge)
    (hsel : selectBestPath g (directionalStopIds g origin)
        (directionalStopIds g destination) mt fuel = some b) :
    (∃ o ∈ directionalStopIds g origin, ∃ d ∈ directionalStopIds g destination,
        dijkstra g o d mt fuel = some b) ∧
    ∀ o ∈ directionalStopIds g origin, ∀ d ∈ directionalStopIds g destination,
      o ≠ d → ∀ p, dijkstra g o d mt fuel = some p → p ≠ [] →
        pathTravelSum b ≤ pathTravelSum p := by
  have hspec := selectFold_spec g mt fuel
    ((directionalStopIds g origin).flatMap
      (fun f => (directionalStopIds g destination).map (fun t => (f, t))))
    none none (Or.inl ⟨rfl, rfl⟩)
  unfold selectBestPath at hsel
  constructor
  · rcases hspec.2.2.2 b hsel with h | ⟨pr, hpr, hd⟩
    · cases h
    · rcases List.mem_flatMap.mp hpr with ⟨f, hf, hmem⟩
      rcases List.mem_map.mp hmem with ⟨t, ht, hpt⟩
      exact ⟨f, hf, t, ht, by rw [← hpt] at hd; exact hd⟩
  · intro o ho d hd hne p hdij hp
    have hpair : (o, d) ∈ (directionalStopIds g origin).flatMap
        (fun f => (directionalStopIds g destination).map (fun t => (f, t))) :=
      List.mem_flatMap.mpr ⟨o, ho, List.mem_map.mpr ⟨d, hd, rfl⟩⟩
    obtain ⟨c2, hc2, hle⟩ := hspec.2.2.1 (o, d) hpair hne p hdij hp
    rcases hspec.1 with ⟨h1, _⟩ | ⟨b2, hb2, hc⟩
    · rw [hsel] at h1; cases h1
    · rw [hsel] at hb2
      injection hb2 with hbb
      subst hbb
      rw [hc] at hc2
      injection hc2 with hcc
      subst hcc
      exact hle

/-- C3, witness: on `gC3` the retained path's travel sum 100 is at most
the competing pair's 110. -/
theorem C3_amended_outer_min_witness :
    pathTravelSum pathC3chosen ≤ pathTravelSum pathC3other := by
  have h := C3_amended_outer_min gC3 "A" "B" 3 30 pathC3chosen rfl
  exact h.2 "AS" (by decide) "BN" (by decide) (by decide) pathC3other rfl (by decide)

/-- C4: the outer search runs the inner search over every expansion pair
with distinct endpoints; whenever some tried pair yields a (non-empty)
path, a best path is retained, it is itself the inner result of a tried
pair, and — given invariant I3 (transfer connections carry zero travel
time) — its travel-time sum over non-transfer edges is minimal among all
tried pairs that yielded a path. -/
theorem C4_outer_search_minimal (g : Graph) (origin destination : String)
    (mt fuel : Nat) (hI3 : TransfersZero g) :
    ∀ o ∈ directionalStopIds g origin, ∀ d ∈ directionalStopIds g destination,
      o ≠ d → ∀ p, dijkstra g o d mt fuel = some p → p ≠ [] →
        ∃ b, selectBestPath g (directionalStopIds g origin)
            (directionalStopIds g destination) mt fuel = some b ∧
          (∃ o2 ∈ directionalStopIds g origin,
            ∃ d2 ∈ directionalStopIds g destination,
              dijkstra g o2 d2 mt fuel = some b) ∧
          nonTransferTravelSum b ≤ nonTransferTravelSum p := by
  intro o ho d hd hne p hdij hp
  have hspec := selectFold_spec g mt fuel
    ((directionalStopIds g origin).flatMap
      (fun f => (directionalStopIds g destination).map (fun t => (f, t))))
    none none (Or.inl ⟨rfl, rfl⟩)
  have hpair : (o, d) ∈ (directionalStopIds g origin).flatMap
      (fun f => (directionalStopIds g destination).map (fun t => (f, t))) :=
    List.mem_flatMap.mpr ⟨o, ho, List.mem_map.mpr ⟨d, hd, rfl⟩⟩
  obtain ⟨c2, hc2, hle⟩ := hspec.2.2.1 (o, d) hpair hne p hdij hp
  rcases hspec.1 with ⟨_, h2⟩ | ⟨b, hb, hc⟩
  · rw [h2] at hc2; cases hc2
  · have hsel : selectBestPath g (directionalStopIds g origin)
        (directionalStopIds g destination) mt fuel = some b := by
      unfold selectBestPath
      exact hb
    have hsource : ∃ o2 ∈ directionalStopIds g origin,
        ∃ d2 ∈ directionalStopIds g destination,
          dijkstra g o2 d2 mt fuel = some b := by
      rcases hspec.2.2.2 b hb with hcon | ⟨pr, hpr, hdb⟩
      · cases hcon
      · rcases List.mem_flatMap.mp hpr with ⟨f, hf, hmem⟩
        rcases List.mem_map.mp hmem with ⟨t, ht, hpt⟩
        exact ⟨f, hf, t, ht, by rw [← hpt] at hdb; exact hdb⟩
    refine ⟨b, hsel, hsource, ?_⟩
    have hgb : GoodPath g b := by
      obtain ⟨o2, _, d2, _, hd2⟩ := hsource
      exact dijkstra_good g o2 d2 mt fuel b hd2
    have hgp : GoodPath g p := dijkstra_good g o d mt fuel p hdij
    rw [goodPath_sums g hI3 b hgb, goodPath_sums g hI3 p hgp]
    rw [hc] at hc2
    injection hc2 with hcc
    rw [hcc]
    exact hle

/-- C4, witness: on `gC3` (which satisfies I3), the pair (AS, BN) yields
a path of non-transfer travel sum 110, so a best path with sum at most
110 is retained. -/
theorem C4_outer_search_minimal_witness :
    ∃ b, selectBestPath gC3 (directionalStopIds gC3 "A")
        (directionalStopIds gC3 "B") 3 30 = some b ∧
      (∃ o2 ∈ directionalStopIds gC3 "A", ∃ d2 ∈ directionalStopIds gC3 "B",
        dijkstra gC3 o2 d2 3 30 = some b) ∧
      nonTransferTravelSum b ≤ nonTransferTravelSum pathC3other :=
  C4_outer_search_minimal gC3 "A" "B" 3 30 (by unfold TransfersZero; decide)
    "AS" (by decide) "BN" (by decide) (by decide) pathC3other rfl (by decide)

/-- C8, amended: the consecutive-stop pass emits a connection `(f, t, r)`
with weight `w` iff the (deduplicated) result set of the join holds at
least one candidate row for that key — rows with a NULL timestamp are
excluded by the query, not defaulted — and `w` is the floor of the
arithmetic mean of those rows, each row weighing
`max(60, arrival - departure)` with 120 s only for unparsable strings. -/
theorem C8_amended_mean_weight (stop_times : List StopTimeRow)
    (trips : List TripRow) (f t r : String) (w : Nat) :
    HasConn (buildConsecutiveConnections stop_times trips []) f t
      { route_id := r, travel_time := w, is_transfer := false,
        transfer_penalty := 0 } ↔
      (consecWeights stop_times trips f t r ≠ [] ∧
        w = (consecWeights stop_times trips f t r).sum /
            (consecWeights stop_times trips f t r).length) := by
  have hlook : lookupList (groupAll ((candRows stop_times trips).map
      (fun row => ((row.from_stop, row.to_stop, row.route_id), rowWeight row))))
      (f, t, r) = consecWeights stop_times trips f t r := by
    rw [lookupList_groupAll, List.filterMap_map]
    unfold consecWeights
    apply List.filterMap_congr
    intro row _
    simp only [Function.comp]
    apply if_congr _ rfl rfl
    simp [Prod.ext_iff]
  have hnone : ¬ HasConn [] f t
      { route_id := r, travel_time := w, is_transfer := false,
        transfer_penalty := 0 } := by
    simp [HasConn, Graph.adj, List.find?]
  obtain ⟨hnde, hnee⟩ := groupAll_inv ((candRows stop_times trips).map
    (fun row => ((row.from_stop, row.to_stop, row.route_id), rowWeight row)))
  unfold buildConsecutiveConnections
  rw [hasConn_consecFold]
  constructor
  · rintro (h | ⟨kv, hkv, h1, h2, h3⟩)
    · exact absurd h hnone
    · have hr : r = kv.1.2.2 := congrArg Conn.route_id h3
      have hw : w = kv.2.sum / kv.2.length := congrArg Conn.travel_time h3
      have hkey : kv.1 = (f, t, r) := by
        rw [← h1, ← h2, hr]
      have hmem : ((f, t, r), kv.2) ∈ groupAll ((candRows stop_times trips).map
          (fun row => ((row.from_stop, row.to_stop, row.route_id), rowWeight row))) := by
        rw [← hkey]
        exact hkv
      have hl := (mem_iff_lookup _ hnde hnee (f, t, r) kv.2).mp hmem
      rw [hlook] at hl
      refine ⟨by rw [hl.1]; exact hl.2, ?_⟩
      rw [← hl.1] at hw
      exact hw
  · rintro ⟨hne, hw⟩
    have hmem : ((f, t, r), consecWeights stop_times trips f t r) ∈
        groupAll ((candRows stop_times trips).map
          (fun row => ((row.from_stop, row.to_stop, row.route_id), rowWeight row))) :=
      (mem_iff_lookup _ hnde hnee (f, t, r) _).mpr ⟨hlook, hne⟩
    exact Or.inr ⟨((f, t, r), consecWeights stop_times trips f t r), hmem,
      rfl, rfl, by rw [hw]⟩

/-- C8, witness: on `storeC6` the key (AN, BN, R) has the single
candidate weight 120, and the emitted connection carries exactly the
mean 120. -/
theorem C8_amended_mean_weight_witness :
    HasConn (buildConsecutiveConnections storeC6.stop_times storeC6.trips [])
      "AN" "BN" { route_id := "R", travel_time := 120, is_transfer := false,
                  transfer_penalty := 0 } :=
  (C8_amended_mean_weight storeC6.stop_times storeC6.trips "AN" "BN" "R" 120).mpr
    ⟨by decide, by decide⟩

/-- C7, amended: the poller's per-update processing emits a keyed
prediction iff the stop id's last character is N or S (E and W suffixed
updates are dropped — the code recognizes only N and S), keyed by the
stop id with that character stripped; the predicted epoch is `arrival`
when present, else `departure`, else the update is dropped; and the
update is dropped exactly when `eta = epoch - now` is below 0 or above
3600 (0 and 3600 are kept). Grouping collects, per `(base, direction)`
key, exactly the emitted predictions in feed order. -/
theorem C7_amended_processing (now : Int) :
    (∀ (feed : List FeedEntity) (k : String × String),
      lookupList (processTripUpdates feed now) k =
        (emittedArrivals feed now).filterMap
          (fun p => if p.1 = k then some p.2 else none)) ∧
    (∀ (r h : String) (stu : StopTimeUpdate) (b d : String) (a : Arrival),
      processSTU r h now stu = some ((b, d), a) ↔
        (((stu.stop_id.data.getLast? = some 'N' ∧ d = "N") ∨
          (stu.stop_id.data.getLast? = some 'S' ∧ d = "S")) ∧
          b = String.mk stu.stop_id.data.dropLast ∧
          ∃ tm, (stu.arrival = some tm ∨
              (stu.arrival = none ∧ stu.departure = some tm)) ∧
            a = { route_id := r, headsign := h, eta_s := tm - now } ∧
            0 ≤ tm - now ∧ tm - now ≤ 3600)) := by
  constructor
  · intro feed k
    unfold processTripUpdates
    exact lookupList_groupAll _ _
  · intro r h stu b d a
    constructor
    · intro hp
      unfold processSTU at hp
      cases hI : inferDirection stu.stop_id with
      | none => rw [hI] at hp; cases hp
      | some dir =>
        rw [hI] at hp
        have hdir : (stu.stop_id.data.getLast? = some 'N' ∧ dir = "N") ∨
            (stu.stop_id.data.getLast? = some 'S' ∧ dir = "S") := by
          unfold inferDirection at hI
          by_cases hN : stu.stop_id.data.getLast? = some 'N'
          · rw [if_pos hN] at hI
            exact Or.inl ⟨hN, (Option.some.inj hI).symm⟩
          · rw [if_neg hN] at hI
            by_cases hS : stu.stop_id.data.getLast? = some 'S'
            · rw [if_pos hS] at hI
              exact Or.inr ⟨hS, (Option.some.inj hI).symm⟩
            · rw [if_neg hS] at hI
              cases hI
        have hstrip : stripDir stu.stop_id = String.mk stu.stop_id.data.dropLast := by
          unfold stripDir
          rcases hdir with ⟨hL, _⟩ | ⟨hL, _⟩ <;> rw [hL] <;> simp [dirChars]
        cases harr : stu.arrival with
        | some tm =>
          rw [harr] at hp
          have hp2 : (if tm - now < 0 then none
              else if 3600 < tm - now then none
              else some ((stripDir stu.stop_id, dir),
                ({ route_id := r, headsign := h, eta_s := tm - now } : Arrival))) =
              some ((b, d), a) := hp
          by_cases h0 : tm - now < 0
          · rw [if_pos h0] at hp2; cases hp2
          · rw [if_neg h0] at hp2
            by_cases h36 : 3600 < tm - now
            · rw [if_pos h36] at hp2; cases hp2
            · rw [if_neg h36] at hp2
              have hkey := congrArg Prod.fst (Option.some.inj hp2)
              have hb : stripDir stu.stop_id = b := congrArg Prod.fst hkey
              have hd : dir = d := congrArg Prod.snd hkey
              have ha := congrArg Prod.snd (Option.some.inj hp2)
              refine ⟨?_, by rw [← hb, hstrip], tm, Or.inl rfl, ha.symm,
                Int.not_lt.mp h0, Int.not_lt.mp h36⟩
              rcases hdir with ⟨hL, hdn⟩ | ⟨hL, hdn⟩
              · exact Or.inl ⟨hL, hd ▸ hdn⟩
              · exact Or.inr ⟨hL, hd ▸ hdn⟩
        | none =>
          rw [harr] at hp
          cases hdep : stu.departure with
          | some tm =>
            rw [hdep] at hp
            have hp2 : (if tm - now < 0 then none
                else if 3600 < tm - now then none
                else some ((stripDir stu.stop_id, dir),
                  ({ route_id := r, headsign := h, eta_s := tm - now } : Arrival))) =
                some ((b, d), a) := hp
            by_cases h0 : tm - now < 0
            · rw [if_pos h0] at hp2; cases hp2
            · rw [if_neg h0] at hp2
              by_cases h36 : 3600 < tm - now
              · rw [if_pos h36] at hp2; cases hp2
              · rw [if_neg h36] at hp2
                have hkey := congrArg Prod.fst (Option.some.inj hp2)
                have hb : stripDir stu.stop_id = b := congrArg Prod.fst hkey
                have hd : dir = d := congrArg Prod.snd hkey
                have ha := congrArg Prod.snd (Option.some.inj hp2)
                refine ⟨?_, by rw [← hb, hstrip], tm, Or.inr ⟨rfl, rfl⟩,
                  ha.symm, Int.not_lt.mp h0, Int.not_lt.mp h36⟩
                rcases hdir with ⟨hL, hdn⟩ | ⟨hL, hdn⟩
                · exact Or.inl ⟨hL, hd ▸ hdn⟩
                · exact Or.inr ⟨hL, hd ▸ hdn⟩
          | none =>
            rw [hdep] at hp
            have hp2 : (none : Option ((String × String) × Arrival)) =
                some ((b, d), a) := hp
            cases hp2
    · rintro ⟨hdir, hb, tm, hsrc, ha, h0, h36⟩
      have hI : inferDirection stu.stop_id = some d := by
        unfold inferDirection
        rcases hdir with ⟨hL, hd⟩ | ⟨hL, hd⟩
        · rw [if_pos hL, hd]
        · have hnN : ¬ stu.stop_id.data.getLast? = some 'N' := by
            rw [hL]
            intro hc
            exact absurd (Option.some.inj hc) (by decide)
          rw [if_neg hnN, if_pos hL, hd]
      have hstrip : stripDir stu.stop_id = b := by
        unfold stripDir
        rcases hdir with ⟨hL, _⟩ | ⟨hL, _⟩ <;> rw [hL, hb] <;> simp [dirChars]
      unfold processSTU
      rw [hI]
      rcases hsrc with harr | ⟨harr, hdep⟩
      · rw [harr]
        show (if tm - now < 0 then none
            else if 3600 < tm - now then none
            else some ((stripDir stu.stop_id, d),
              ({ route_id := r, headsign := h, eta_s := tm - now } : Arrival))) =
            some ((b, d), a)
        rw [if_neg (Int.not_lt.mpr h0), if_neg (Int.not_lt.mpr h36), hstrip, ha]
      · rw [harr, hdep]
        show (if tm - now < 0 then none
            else if 3600 < tm - now then none
            else some ((stripDir stu.stop_id, d),
              ({ route_id := r, headsign := h, eta_s := tm - now } : Arrival))) =
            some ((b, d), a)
        rw [if_neg (Int.not_lt.mpr h0), if_neg (Int.not_lt.mpr h36), hstrip, ha]

/-- C7, witness: a stop-time update at `123N` arriving 100 s after the
cycle start is emitted at key (123, N) with eta 100. -/
theorem C7_amended_processing_witness :
    processSTU "7" "7 Train" 900
      { stop_id := "123N", arrival := some 1000, departure := none } =
      some (("123", "N"),
        { route_id := "7", headsign := "7 Train", eta_s := 100 }) := by
  apply ((C7_amended_processing 900).2 "7" "7 Train"
    { stop_id := "123N", arrival := some 1000, departure := none } "123" "N"
    { route_id := "7", headsign := "7 Train", eta_s := 100 }).mpr
  exact ⟨Or.inl ⟨by decide, rfl⟩, by decide, 1000, Or.inl rfl, by decide,
    by decide, by decide⟩

/-- C2, amended: the first leg of a path that starts with a revenue edge
boards at the code's live lookup — the cache is consulted under the
leg's from-stop id as given, trying N, S, E, W in order, the first
direction with a matching arrival winning with its minimum eta — with
the edge's travel time as fallback; every later leg boards at its own
travel time and is flagged as a transfer leg. -/
theorem C2_amended_first_leg (cache : String → String → Option (List Arrival))
    (e : Edge) (rest : List Edge) (he : e.is_transfer = false) :
    pathToLegs cache (e :: rest) =
      some ({ route_id := e.route_id, from_stop_id := e.from_stop,
              to_stop_id := e.to_stop,
              board_in_s :=
                match getLiveBoardingTime cache e.from_stop e.route_id with
                | some v => v
                | none => (e.travel_time : Int),
              run_s := e.travel_time, transfer := false } ::
            pathToLegsAux cache 1 rest) ∧
    ∀ leg ∈ pathToLegsAux cache 1 rest,
      leg.board_in_s = (leg.run_s : Int) ∧ leg.transfer = true :=
  ⟨pathToLegs_cons cache e rest he, pathToLegsAux_tail cache rest 1 le_rfl⟩

/-- C2, witness: under `cacheW2` the first direction with a match (N,
eta 40) wins even though direction S holds the smaller eta 20. -/
theorem C2_amended_first_leg_witness :
    pathToLegs cacheW2 pathC2 =
      some [{ route_id := "R", from_stop_id := "AN", to_stop_id := "BN",
              board_in_s := 40, run_s := 300, transfer := false }] := by
  have h := C2_amended_first_leg cacheW2
    { from_stop := "AN", to_stop := "BN", route_id := "R",
      travel_time := 300, is_transfer := false } [] rfl
  exact h.1.trans (by rfl)

/-- C10: the cache read maps every raised backend failure or malformed
payload to the absent result, a `some` answer faithfully reports a
successfully decoded payload, and an absent live lookup leaves the first
leg boarding at the scheduled travel time. -/
theorem C10_cache_failures_absent (rget : String → RedisResult)
    (dec : String → Option (List Arrival)) (s d : String) :
    (∀ m, getArrivalsRaw rget dec s d = Except.error m →
        getArrivals rget dec s d = none) ∧
    (∀ l, getArrivals rget dec s d = some l →
        getArrivalsRaw rget dec s d = Except.ok (some l)) ∧
    (∀ (cache : String → String → Option (List Arrival)) (e : Edge)
        (rest : List Edge),
        e.is_transfer = false →
        getLiveBoardingTime cache e.from_stop e.route_id = none →
        pathToLegs cache (e :: rest) =
          some ({ route_id := e.route_id, from_stop_id := e.from_stop,
                  to_stop_id := e.to_stop, board_in_s := (e.travel_time : Int),
                  run_s := e.travel_time, transfer := false } ::
                pathToLegsAux cache 1 rest)) := by
  refine ⟨?_, ?_, ?_⟩
  · intro m h
    unfold getArrivals
    rw [h]
  · intro l h
    unfold getArrivals at h
    revert h
    cases hraw : getArrivalsRaw rget dec s d with
    | error m => intro h; cases h
    | ok r =>
      intro h
      cases r with
      | none => cases h
      | some l2 => cases h; rfl
  · intro cache e rest he hnone
    have h := pathToLegs_cons cache e rest he
    rw [h, hnone]

/-- C10, witness: a failing backend reads as absent, and the concrete
one-leg path then boards at its scheduled 300 s. -/
theorem C10_cache_failures_absent_witness :
    getArrivals downRedis noDecode "127" "N" = none ∧
    pathToLegs emptyCache pathC2 =
      some [{ route_id := "R", from_stop_id := "AN", to_stop_id := "BN",
              board_in_s := 300, run_s := 300, transfer := false }] := by
  refine ⟨(C10_cache_failures_absent downRedis noDecode "127" "N").1
      "connection refused" rfl, ?_⟩
  have h := (C10_cache_failures_absent downRedis noDecode "127" "N").2.2 emptyCache
    { from_stop := "AN", to_stop := "BN", route_id := "R",
      travel_time := 300, is_transfer := false } [] rfl rfl
  exact h.trans (by rfl)

end SubwayEta
